import Mathlib

/-
Verification development for the schema catalog (src/edb/lang/schema/schema.py)
and the function-call overload resolver (src/edb/lang/edgeql/compiler/func.py).

The Python `immutables.Map` values are modelled as association lists
(`SMap`): `set` replaces the first binding of the key or appends a fresh
one, `del` removes every binding of the key, `lookup` returns the first
binding.  This keeps the structural identity of untouched entries
observable, which the backreference-maintenance claims are about.
-/

set_option autoImplicit false

namespace EdgeDB

/-- Model of `immutables.Map`: an association list keyed by a type with
decidable equality.  Maps built by the operations below never hold two
bindings of the same key. -/
abbrev SMap (α : Type) (β : Type) : Type := List (α × β)

namespace SMap

variable {α β : Type} [DecidableEq α]

/-- Lookup of a key: first binding wins (mirrors `Map.__getitem__` /
`Map.get`). -/
def lookup : SMap α β → α → Option β
  | [], _ => none
  | (k', v') :: t, k => if k' = k then some v' else lookup t k

/-- Model of `Map.set`: replace the first binding of the key, or append a
fresh binding. -/
def set : SMap α β → α → β → SMap α β
  | [], k, v => [(k, v)]
  | (k', v') :: t, k, v => if k' = k then (k, v) :: t else (k', v') :: set t k v

/-- Model of `Map.delete`, totalised: removing an absent key leaves the
map unchanged (the source raises `KeyError` there; every use in the
source removes a key that is present). -/
def del : SMap α β → α → SMap α β
  | [], _ => []
  | (k', v') :: t, k => if k' = k then del t k else (k', v') :: del t k

@[simp] theorem lookup_nil (k : α) : (([] : SMap α β).lookup k) = none := rfl

theorem lookup_set (m : SMap α β) (k : α) (v : β) (k' : α) :
    (m.set k v).lookup k' = if k' = k then some v else m.lookup k' := by
  induction m with
  | nil =>
    by_cases h : k' = k
    · simp [set, lookup, h]
    · simp [set, lookup, h, Ne.symm h]
  | cons hd t ih =>
    obtain ⟨hk, hv⟩ := hd
    by_cases h1 : hk = k
    · by_cases h2 : k' = k
      · simp [set, lookup, h1, h2]
      · simp [set, lookup, h1, h2, Ne.symm h2]
    · by_cases h2 : hk = k'
      · have h3 : ¬ k' = k := fun e => h1 (h2.trans e)
        simp [set, lookup, h1, h2, h3]
      · simp [set, lookup, h1, h2, ih]

theorem lookup_del (m : SMap α β) (k : α) (k' : α) :
    (m.del k).lookup k' = if k' = k then none else m.lookup k' := by
  induction m with
  | nil =>
    by_cases h : k' = k <;> simp [del, lookup, h]
  | cons hd t ih =>
    obtain ⟨hk, hv⟩ := hd
    by_cases h1 : hk = k
    · by_cases h2 : k' = k
      · rw [h2] at ih
        simp [del, lookup, h1, h2, ih]
      · have h3 : ¬ k = k' := fun e => h2 e.symm
        simp [del, lookup, h1, h2, h3, ih]
    · by_cases h2 : hk = k'
      · have h3 : ¬ k' = k := fun e => h1 (h2.trans e)
        simp [del, lookup, h1, h2, h3]
      · simp [del, lookup, h1, h2, ih]

theorem lookup_set_self (m : SMap α β) (k : α) (v : β) :
    (m.set k v).lookup k = some v := by simp [lookup_set]

theorem lookup_set_ne (m : SMap α β) (k : α) (v : β) (k' : α) (h : k' ≠ k) :
    (m.set k v).lookup k' = m.lookup k' := by simp [lookup_set, h]

end SMap

/-- Object identities (`uuid` in the source). -/
abbrev ObjId : Type := Nat

/-- Model of `sn.SchemaName` (and of the plain strings used as module
names): `module = none` is an unqualified name, as module objects have. -/
structure SName where
  module : Option String
  short : String
deriving DecidableEq

/-- Model of a schema-object class (a Python `type`).  `objectFields` is
the result of `get_object_fields()` (the names of reference-typed
fields), `isModule` models `isinstance(-, s_modules.Module)`, and
`hasSnCache` models `issubclass(-, (s_func.Function, s_oper.Operator))`. -/
structure SclsType where
  tag : String
  objectFields : List String
  isModule : Bool
  hasSnCache : Bool
deriving DecidableEq

/-- Model of a schema object instance: its identity and its class. -/
structure SObject where
  id : ObjId
  type : SclsType
deriving DecidableEq

/-- Values stored in an object's field map.  Reference-typed fields hold
`ref` (a single `so.Object`) or `refColl` (an `so.ObjectCollection`,
whose `ids` the model stores directly); the `name` field holds `nameVal`;
other fields hold opaque `scalar` values. -/
inductive FieldValue where
  | nameVal (n : SName)
  | scalar (s : String)
  | ref (i : ObjId)
  | refColl (ids : List ObjId)
deriving DecidableEq

/-- The set of identities referenced by a field value: `frozenset(ref.ids(self))`
for a collection, `frozenset((ref.id,))` for a single reference.  An absent
field gives the empty set (the source uses `None`, which behaves as empty in
every set difference and emptiness test of `_update_refs_to`); the source
never stores a scalar or a name in an object field. -/
def refIdsOf : Option FieldValue → Finset ObjId
  | some (FieldValue.ref i) => {i}
  | some (FieldValue.refColl ids) => ids.toFinset
  | _ => ∅

/-- Referenced identities of one field of an `orig_data`/`new_data`
argument of `_update_refs_to` (where `none` models passing `None`). -/
def fieldIds : Option (SMap String FieldValue) → String → Finset ObjId
  | none, _ => ∅
  | some d, f => refIdsOf (d.lookup f)

/-- Keys of the reverse-reference index: `(scls_type, field.name)`. -/
abbrev RefsKey : Type := SclsType × String

/-- The per-referenced-object slice of `_refs_to`. -/
abbrev RefsInner : Type := SMap RefsKey (Finset ObjId)

/-- Model of `Schema._refs_to`. -/
abbrev RefsTo : Type := SMap ObjId RefsInner

/-- Model of the `new_ids` branch body of `_update_refs_to` for a single
newly-referenced identity `refId`: record that `sclsId` refers to it
under `key`. -/
def addRefEntry (key : RefsKey) (sclsId : ObjId) (mm : RefsTo) (refId : ObjId) : RefsTo :=
  match mm.lookup refId with
  | none => mm.set refId [(key, ({sclsId} : Finset ObjId))]
  | some refs =>
    let fieldRefs := (refs.lookup key).getD ∅ ∪ {sclsId}
    mm.set refId (refs.set key fieldRefs)

/-- Model of the `old_ids` branch body of `_update_refs_to` for a single
no-longer-referenced identity `refId`.  The source indexes `mm[ref_id]`
and `refs[key]` directly (raising `KeyError` when absent, which cannot
happen while the index is consistent); the model reads the empty set
there, which then deletes the key just as the source's empty-set branch
does. -/
def delRefEntry (key : RefsKey) (sclsId : ObjId) (mm : RefsTo) (refId : ObjId) : RefsTo :=
  match mm.lookup refId with
  | none => mm
  | some refs =>
    let fieldRefs := (refs.lookup key).getD ∅ \ {sclsId}
    if fieldRefs = ∅ then mm.set refId (refs.del key)
    else mm.set refId (refs.set key fieldRefs)

/-- One iteration of the `for field in objfields` loop of
`_update_refs_to`.  The source's four-way branch on the truthiness of
`ids`/`orig_ids` computes exactly the two set differences below (with
`None` behaving as the empty set), and its `continue` when both are
falsy is a no-op of the same shape. -/
def updOneField (sclsType : SclsType) (sclsId : ObjId)
    (origData newData : Option (SMap String FieldValue)) (mm : RefsTo)
    (fname : String) : RefsTo :=
  let ids := fieldIds newData fname
  let origIds := fieldIds origData fname
  let key : RefsKey := (sclsType, fname)
  let newIds := ids \ origIds
  let oldIds := origIds \ ids
  let mm1 := (newIds.sort (fun a b => a ≤ b)).foldl (addRefEntry key sclsId) mm
  (oldIds.sort (fun a b => a ≤ b)).foldl (delRefEntry key sclsId) mm1

/-- Model of `Schema._update_refs_to(scls, orig_data, new_data)`. -/
def updateRefsTo (refsTo : RefsTo) (scls : SObject)
    (origData newData : Option (SMap String FieldValue)) : RefsTo :=
  scls.type.objectFields.foldl (updOneField scls.type scls.id origData newData) refsTo

/-- Errors raised by the catalog.  `nameAlreadyPresent` models the
`SchemaError` for a duplicate name, `keyError` models a raw Python
`KeyError`/`AttributeError` on states the source never reaches (a
missing `name` entry on add, or mismatched index domains). -/
inductive SchemaError where
  | nameAlreadyPresent (n : SName)
  | moduleNotFound (m : String)
  | itemNotFound (i : ObjId)
  | cannotSetField (f : String) (i : ObjId)
  | keyError
deriving DecidableEq

/-- Model of the `Schema` value: the six synchronized indices plus the
diagnostic generation counter. -/
structure Schema where
  modules : SMap String ObjId
  idToData : SMap ObjId (SMap String FieldValue)
  idToType : SMap ObjId SObject
  shortnameToId : SMap RefsKey (Finset ObjId)
  nameToId : SMap SName ObjId
  refsTo : RefsTo
  generation : Nat
deriving DecidableEq

/-- Modelled from the spec: `sn.shortname_from_fullname` lives in
`name.py`, outside `src/`; the spec describes the overload-group index as
keyed by "(variant tag, unqualified name)", so the model takes the
unqualified part of the name. -/
def shortnameFromFullname (n : SName) : String := n.short

/-- The `name` field of an object's data, when present (the source's
`data.get('name')`; the source only ever stores schema names there). -/
def dataName? (d : SMap String FieldValue) : Option SName :=
  match d.lookup "name" with
  | some (FieldValue.nameVal n) => some n
  | _ => none

/-- Model of `Schema._update_obj_name(obj_id, scls, old_name, new_name)`:
returns the updated `name_to_id` and `shortname_to_id` maps, or the
duplicate-name `SchemaError`.  The source's direct
`shortname_to_id[sn_key]` reads are modelled with an empty-set default
(absent keys are unreachable while the indices are consistent). -/
def Schema.updateObjName (S : Schema) (objId : ObjId) (scls : SObject)
    (oldName newName : Option SName) :
    Except SchemaError (SMap SName ObjId × SMap RefsKey (Finset ObjId)) :=
  let hasSn := scls.type.hasSnCache
  let n2i := match oldName with
    | some oname => S.nameToId.del oname
    | none => S.nameToId
  let s2i := match oldName with
    | some oname =>
      if hasSn then
        let snKey : RefsKey := (scls.type, shortnameFromFullname oname)
        let newIds := (S.shortnameToId.lookup snKey).getD ∅ \ {objId}
        if newIds = ∅ then S.shortnameToId.del snKey
        else S.shortnameToId.set snKey newIds
      else S.shortnameToId
    | none => S.shortnameToId
  match newName with
  | none => Except.ok (n2i, s2i)
  | some nn =>
    if (n2i.lookup nn).isSome then Except.error (SchemaError.nameAlreadyPresent nn)
    else
      let n2i2 := n2i.set nn objId
      if hasSn then
        let snKey : RefsKey := (scls.type, shortnameFromFullname nn)
        let ids := (s2i.lookup snKey).getD ∅
        Except.ok (n2i2, s2i.set snKey (ids ∪ {objId}))
      else Except.ok (n2i2, s2i)

/-- Model of `Schema._add(id, scls, data)`.  The duplicate-name check
comes first; the module check comes after all index updates are computed
but, like the source, fails without producing a new schema value.  The
`keyError` arms model the raw `KeyError`/`AttributeError` the source
would raise on data without a proper `name` entry, or on a non-module
object with an unqualified name. -/
def Schema.add (S : Schema) (i : ObjId) (scls : SObject)
    (data : SMap String FieldValue) : Except SchemaError Schema :=
  match data.lookup "name" with
  | some (FieldValue.nameVal name) =>
    if (S.nameToId.lookup name).isSome then
      Except.error (SchemaError.nameAlreadyPresent name)
    else
      match S.updateObjName i scls none (some name) with
      | Except.error e => Except.error e
      | Except.ok (n2i, s2i) =>
        let newData := S.idToData.set i data
        let newType := S.idToType.set i scls
        let newRefs := updateRefsTo S.refsTo scls none (some data)
        if scls.type.isModule then
          Except.ok { modules := S.modules.set name.short i, idToData := newData,
                      idToType := newType, shortnameToId := s2i, nameToId := n2i,
                      refsTo := newRefs, generation := S.generation + 1 }
        else
          match name.module with
          | some m =>
            if (S.modules.lookup m).isSome then
              Except.ok { modules := S.modules, idToData := newData,
                          idToType := newType, shortnameToId := s2i, nameToId := n2i,
                          refsTo := newRefs, generation := S.generation + 1 }
            else Except.error (SchemaError.moduleNotFound m)
          | none => Except.error SchemaError.keyError
  | _ => Except.error SchemaError.keyError

/-- Model of `Schema._delete(obj)` (also `delete`, which aliases it). -/
def Schema.delete (S : Schema) (obj : SObject) : Except SchemaError Schema :=
  match S.idToData.lookup obj.id with
  | none => Except.error (SchemaError.itemNotFound obj.id)
  | some data =>
    match dataName? data with
    | none => Except.error SchemaError.keyError
    | some name =>
      match S.idToType.lookup obj.id with
      | none => Except.error SchemaError.keyError
      | some tobj =>
        match S.updateObjName obj.id tobj (some name) none with
        | Except.error e => Except.error e
        | Except.ok (n2i, s2i) =>
          let newRefs := updateRefsTo S.refsTo obj (some data) none
          let newModules := if obj.type.isModule then S.modules.del name.short
                            else S.modules
          Except.ok { modules := newModules, idToData := S.idToData.del obj.id,
                      idToType := S.idToType.del obj.id, shortnameToId := s2i,
                      nameToId := n2i, refsTo := newRefs,
                      generation := S.generation + 1 }

/-- The `orig_field_data` dictionary of `_set_obj_field`: the single old
binding of the field when present, empty otherwise. -/
def origSingle (data : SMap String FieldValue) (field : String) :
    SMap String FieldValue :=
  match SMap.lookup data field with
  | some ov => [(field, ov)]
  | none => []

/-- The name-index part of `_set_obj_field`: mutating the `name` field
routes through `_update_obj_name`; any other field leaves both name
indices unchanged. -/
def Schema.setFieldNameIdx (S : Schema) (i : ObjId) (scls : SObject)
    (data : SMap String FieldValue) (field : String) (value : FieldValue) :
    Except SchemaError (SMap SName ObjId × SMap RefsKey (Finset ObjId)) :=
  if field = "name" then
    match value with
    | FieldValue.nameVal nn => S.updateObjName i scls (dataName? data) (some nn)
    | _ => Except.error SchemaError.keyError
  else Except.ok (S.nameToId, S.shortnameToId)

/-- Model of `Schema._set_obj_field(obj_id, field, value)`.  Setting the
`name` field can fail with the duplicate-name error; the
reverse-reference index is recomputed from the single-field
`orig_field_data`/`{field: value}` pair, exactly as in the source. -/
def Schema.setField (S : Schema) (i : ObjId) (field : String) (value : FieldValue) :
    Except SchemaError Schema :=
  match S.idToData.lookup i with
  | none => Except.error (SchemaError.cannotSetField field i)
  | some data =>
    match S.idToType.lookup i with
    | none => Except.error SchemaError.keyError
    | some scls =>
      match S.setFieldNameIdx i scls data field value with
      | Except.error e => Except.error e
      | Except.ok (n2i, s2i) =>
        Except.ok { modules := S.modules,
                    idToData := S.idToData.set i (data.set field value),
                    idToType := S.idToType, shortnameToId := s2i,
                    nameToId := n2i,
                    refsTo := updateRefsTo S.refsTo scls
                      (some (origSingle data field)) (some [(field, value)]),
                    generation := S.generation + 1 }

/-- Model of `Schema._unset_obj_field(obj_id, field)`.  It never raises:
a missing object or a missing non-`name` field returns the original
schema value unchanged (the source's `return self`).  The unreachable
corners where `_id_to_type` lacks an identity that `_id_to_data` has are
modelled as `return self` as well. -/
def Schema.unsetField (S : Schema) (i : ObjId) (field : String) : Schema :=
  match S.idToData.lookup i with
  | none => S
  | some data =>
    let name? := dataName? data
    if field = "name" ∧ name?.isSome then
      match S.idToType.lookup i, data.lookup field with
      | some scls, some ov =>
        match S.updateObjName i scls name? none with
        | Except.ok (n2i, s2i) =>
          let newData := data.del field
          let newRefs := updateRefsTo S.refsTo scls (some [(field, ov)]) none
          { modules := S.modules, idToData := S.idToData.set i newData,
            idToType := S.idToType, shortnameToId := s2i, nameToId := n2i,
            refsTo := newRefs, generation := S.generation + 1 }
        | Except.error _ => S
      | _, _ => S
    else
      match data.lookup field with
      | none => S
      | some ov =>
        match S.idToType.lookup i with
        | none => S
        | some scls =>
          let newData := data.del field
          let newRefs := updateRefsTo S.refsTo scls (some [(field, ov)]) none
          { modules := S.modules, idToData := S.idToData.set i newData,
            idToType := S.idToType, shortnameToId := S.shortnameToId,
            nameToId := S.nameToId, refsTo := newRefs,
            generation := S.generation + 1 }

/-- The identities recorded in `_refs_to` under referenced object `b`
and key `key`, with absent entries reading as the empty set (the source
deletes entries that become empty, so absence and emptiness coincide). -/
def refsLookup (rt : RefsTo) (b : ObjId) (key : RefsKey) : Finset ObjId :=
  match rt.lookup b with
  | none => ∅
  | some refs => (refs.lookup key).getD ∅

/-- Model of `Schema.get_referrers(scls, scls_type=..., field_name=...)`
with both filters supplied (the only form the claims use).  The source
iterates `refs.items()` keeping entries whose key equals
`(scls_type, field_name)`; over a map that collects exactly the entry at
that key.  The direct `self._id_to_type[objid]` reads are modelled by
`filterMap` (a miss is unreachable while the indices are consistent). -/
def Schema.getReferrers (S : Schema) (scls : SObject) (sclsType : SclsType)
    (fieldName : String) : Finset SObject :=
  match S.refsTo.lookup scls.id with
  | none => ∅
  | some refs =>
    ((((refs.lookup (sclsType, fieldName)).getD ∅).sort (fun a b => a ≤ b)).filterMap
      S.idToType.lookup).toFinset

/-- Pointwise effect of `addRefEntry`: only the entry of the newly
referenced identity `r` at `key` gains the referrer. -/
theorem refsLookup_addRefEntry (key : RefsKey) (s : ObjId) (mm : RefsTo)
    (r b : ObjId) (k : RefsKey) :
    refsLookup (addRefEntry key s mm r) b k =
      if b = r ∧ k = key then refsLookup mm b k ∪ {s}
      else refsLookup mm b k := by
  unfold addRefEntry refsLookup
  by_cases hb : b = r
  · subst hb
    cases hmm : SMap.lookup mm b with
    | none =>
      by_cases hk : k = key
      · subst hk
        simp [hmm, SMap.lookup_set, SMap.lookup]
      · simp [hmm, SMap.lookup_set, SMap.lookup, hk, Ne.symm hk]
    | some refs =>
      by_cases hk : k = key
      · subst hk
        simp [hmm, SMap.lookup_set]
      · simp [hmm, SMap.lookup_set, hk]
  · cases hmm : SMap.lookup mm r with
    | none => simp [hmm, SMap.lookup_set, hb]
    | some refs => simp [hmm, SMap.lookup_set, hb]

/-- Entries of identities other than `r` are structurally untouched by
`addRefEntry`. -/
theorem lookup_addRefEntry_ne (key : RefsKey) (s : ObjId) (mm : RefsTo)
    (r b : ObjId) (hb : b ≠ r) :
    SMap.lookup (addRefEntry key s mm r) b = SMap.lookup mm b := by
  unfold addRefEntry
  cases hmm : SMap.lookup mm r with
  | none => simp [hmm, SMap.lookup_set, hb]
  | some refs => simp [hmm, SMap.lookup_set, hb]

/-- Pointwise effect of `delRefEntry`: only the entry of the
no-longer-referenced identity `r` at `key` loses the referrer. -/
theorem refsLookup_delRefEntry (key : RefsKey) (s : ObjId) (mm : RefsTo)
    (r b : ObjId) (k : RefsKey) :
    refsLookup (delRefEntry key s mm r) b k =
      if b = r ∧ k = key then refsLookup mm b k \ {s}
      else refsLookup mm b k := by
  unfold delRefEntry refsLookup
  by_cases hb : b = r
  · subst hb
    cases hmm : SMap.lookup mm b with
    | none =>
      by_cases hk : k = key <;> simp [hmm, hk]
    | some refs =>
      by_cases hempty : ((SMap.lookup refs key).getD ∅ \ {s} : Finset ObjId) = ∅
      · by_cases hk : k = key
        · subst hk
          simp [hmm, hempty, SMap.lookup_set, SMap.lookup_del]
        · simp [hmm, hempty, SMap.lookup_set, SMap.lookup_del, hk]
      · by_cases hk : k = key
        · subst hk
          simp [hmm, hempty, SMap.lookup_set]
        · simp [hmm, hempty, SMap.lookup_set, hk]
  · cases hmm : SMap.lookup mm r with
    | none => simp [hmm, hb]
    | some refs =>
      by_cases hempty : ((SMap.lookup refs key).getD ∅ \ {s} : Finset ObjId) = ∅ <;>
        simp [hmm, hempty, SMap.lookup_set, hb]

/-- Entries of identities other than `r` are structurally untouched by
`delRefEntry`. -/
theorem lookup_delRefEntry_ne (key : RefsKey) (s : ObjId) (mm : RefsTo)
    (r b : ObjId) (hb : b ≠ r) :
    SMap.lookup (delRefEntry key s mm r) b = SMap.lookup mm b := by
  unfold delRefEntry
  cases hmm : SMap.lookup mm r with
  | none => rfl
  | some refs =>
    by_cases hempty : ((SMap.lookup refs key).getD ∅ \ {s} : Finset ObjId) = ∅ <;>
      simp [hmm, hempty, SMap.lookup_set, hb]

/-- Pointwise effect of folding `addRefEntry` over a list of identities. -/
theorem refsLookup_addFold (key : RefsKey) (s : ObjId) (L : List ObjId)
    (mm : RefsTo) (b : ObjId) (k : RefsKey) :
    refsLookup (L.foldl (addRefEntry key s) mm) b k =
      if b ∈ L ∧ k = key then refsLookup mm b k ∪ {s}
      else refsLookup mm b k := by
  induction L generalizing mm with
  | nil => simp
  | cons r t ih =>
    simp only [List.foldl_cons]
    rw [ih, refsLookup_addRefEntry]
    by_cases hb : b = r
    · by_cases hbt : b ∈ t
      · by_cases hk : k = key <;>
          simp [hb, hbt, hk, Finset.union_assoc]
      · by_cases hk : k = key <;> simp [hb, hbt, hk]
    · by_cases hbt : b ∈ t
      · by_cases hk : k = key <;> simp [hb, hbt, hk]
      · by_cases hk : k = key <;> simp [hb, hbt, hk]

/-- Identities outside the folded list keep structurally untouched
entries (`addRefEntry` fold). -/
theorem lookup_addFold_notMem (key : RefsKey) (s : ObjId) (L : List ObjId)
    (mm : RefsTo) (b : ObjId) (hb : b ∉ L) :
    SMap.lookup (L.foldl (addRefEntry key s) mm) b = SMap.lookup mm b := by
  induction L generalizing mm with
  | nil => rfl
  | cons r t ih =>
    simp only [List.mem_cons, not_or] at hb
    simp only [List.foldl_cons]
    rw [ih _ hb.2, lookup_addRefEntry_ne _ _ _ _ _ hb.1]

/-- Pointwise effect of folding `delRefEntry` over a list of identities. -/
theorem refsLookup_delFold (key : RefsKey) (s : ObjId) (L : List ObjId)
    (mm : RefsTo) (b : ObjId) (k : RefsKey) :
    refsLookup (L.foldl (delRefEntry key s) mm) b k =
      if b ∈ L ∧ k = key then refsLookup mm b k \ {s}
      else refsLookup mm b k := by
  induction L generalizing mm with
  | nil => simp
  | cons r t ih =>
    simp only [List.foldl_cons]
    rw [ih, refsLookup_delRefEntry]
    by_cases hb : b = r
    · by_cases hbt : b ∈ t
      · by_cases hk : k = key <;> simp [hb, hbt, hk, sdiff_idem]
      · by_cases hk : k = key <;> simp [hb, hbt, hk]
    · by_cases hbt : b ∈ t
      · by_cases hk : k = key <;> simp [hb, hbt, hk]
      · by_cases hk : k = key <;> simp [hb, hbt, hk]

/-- Identities outside the folded list keep structurally untouched
entries (`delRefEntry` fold). -/
theorem lookup_delFold_notMem (key : RefsKey) (s : ObjId) (L : List ObjId)
    (mm : RefsTo) (b : ObjId) (hb : b ∉ L) :
    SMap.lookup (L.foldl (delRefEntry key s) mm) b = SMap.lookup mm b := by
  induction L generalizing mm with
  | nil => rfl
  | cons r t ih =>
    simp only [List.mem_cons, not_or] at hb
    simp only [List.foldl_cons]
    rw [ih _ hb.2, lookup_delRefEntry_ne _ _ _ _ _ hb.1]

/-- Pointwise effect of one field iteration of `_update_refs_to`: the
entry at key `(T, f)` is transformed by the add/remove diffs and every
other key is untouched. -/
theorem refsLookup_updOneField (T : SclsType) (s : ObjId)
    (od nd : Option (SMap String FieldValue)) (mm : RefsTo) (f : String)
    (b : ObjId) (k : RefsKey) :
    refsLookup (updOneField T s od nd mm f) b k =
      if k = (T, f) then
        (if b ∈ fieldIds nd f \ fieldIds od f then refsLookup mm b k ∪ {s}
         else if b ∈ fieldIds od f \ fieldIds nd f then refsLookup mm b k \ {s}
         else refsLookup mm b k)
      else refsLookup mm b k := by
  unfold updOneField
  rw [refsLookup_delFold, refsLookup_addFold]
  simp only [Finset.mem_sort]
  by_cases hk : k = (T, f)
  · by_cases hN : b ∈ fieldIds nd f \ fieldIds od f
    · have hO : b ∉ fieldIds od f \ fieldIds nd f := by
        simp only [Finset.mem_sdiff] at hN ⊢
        exact fun hc => hc.2 hN.1
      simp [hk, hN, hO]
    · by_cases hO : b ∈ fieldIds od f \ fieldIds nd f
      · simp [hk, hN, hO]
      · simp [hk, hN, hO]
  · simp [hk]

/-- Identities outside both diffs of the field keep structurally
untouched entries under one field iteration. -/
theorem lookup_updOneField_notMem (T : SclsType) (s : ObjId)
    (od nd : Option (SMap String FieldValue)) (mm : RefsTo) (f : String)
    (b : ObjId)
    (hN : b ∉ fieldIds nd f \ fieldIds od f)
    (hO : b ∉ fieldIds od f \ fieldIds nd f) :
    SMap.lookup (updOneField T s od nd mm f) b = SMap.lookup mm b := by
  unfold updOneField
  rw [lookup_delFold_notMem, lookup_addFold_notMem]
  · simpa using hN
  · simpa using hO

/-- Pointwise effect of the whole objfields fold of `_update_refs_to`
over an arbitrary duplicate-free field list. -/
theorem refsLookup_fieldsFold (T : SclsType) (s : ObjId)
    (od nd : Option (SMap String FieldValue)) (L : List String)
    (hnd : L.Nodup) (rt : RefsTo) (b : ObjId) (T' : SclsType) (F : String) :
    refsLookup (L.foldl (updOneField T s od nd) rt) b (T', F) =
      if T' = T ∧ F ∈ L then
        (if b ∈ fieldIds nd F \ fieldIds od F then refsLookup rt b (T', F) ∪ {s}
         else if b ∈ fieldIds od F \ fieldIds nd F then refsLookup rt b (T', F) \ {s}
         else refsLookup rt b (T', F))
      else refsLookup rt b (T', F) := by
  induction L generalizing rt with
  | nil => simp
  | cons f t ih =>
    have hft : f ∉ t := (List.nodup_cons.mp hnd).1
    have hndt : t.Nodup := (List.nodup_cons.mp hnd).2
    simp only [List.foldl_cons]
    rw [ih hndt, refsLookup_updOneField]
    by_cases hT : T' = T
    · by_cases hF : F = f
      · have hkey : ((T', F) : RefsKey) = (T, f) := by rw [hT, hF]
        simp [hT, hF, hft, hkey]
      · have hkey : ((T', F) : RefsKey) ≠ (T, f) := by
          intro hc
          exact hF (congrArg Prod.snd hc)
        by_cases hFt : F ∈ t
        · simp [hT, hF, hFt, hkey]
        · simp [hT, hF, hFt, hkey]
    · have hkey : ((T', F) : RefsKey) ≠ (T, f) := by
        intro hc
        exact hT (congrArg Prod.fst hc)
      simp [hT, hkey]

/-- Pointwise effect of `_update_refs_to`. -/
theorem refsLookup_updateRefsTo (rt : RefsTo) (scls : SObject)
    (od nd : Option (SMap String FieldValue))
    (hnd : scls.type.objectFields.Nodup) (b : ObjId) (T' : SclsType)
    (F : String) :
    refsLookup (updateRefsTo rt scls od nd) b (T', F) =
      if T' = scls.type ∧ F ∈ scls.type.objectFields then
        (if b ∈ fieldIds nd F \ fieldIds od F then
           refsLookup rt b (T', F) ∪ {scls.id}
         else if b ∈ fieldIds od F \ fieldIds nd F then
           refsLookup rt b (T', F) \ {scls.id}
         else refsLookup rt b (T', F))
      else refsLookup rt b (T', F) :=
  refsLookup_fieldsFold scls.type scls.id od nd scls.type.objectFields hnd rt b T' F

/-- Identities outside every field's diffs keep structurally untouched
entries under the objfields fold. -/
theorem lookup_fieldsFold_untouched (T : SclsType) (s : ObjId)
    (od nd : Option (SMap String FieldValue)) (L : List String)
    (rt : RefsTo) (b : ObjId)
    (h : ∀ f ∈ L,
      b ∉ fieldIds nd f \ fieldIds od f ∧ b ∉ fieldIds od f \ fieldIds nd f) :
    SMap.lookup (L.foldl (updOneField T s od nd) rt) b = SMap.lookup rt b := by
  induction L generalizing rt with
  | nil => rfl
  | cons f t ih =>
    simp only [List.foldl_cons]
    rw [ih _ (fun g hg => h g (List.mem_cons_of_mem f hg)),
      lookup_updOneField_notMem T s od nd rt f b
        (h f (List.mem_cons_self f t)).1 (h f (List.mem_cons_self f t)).2]

/-- Identities outside every field's diffs keep structurally untouched
entries under `_update_refs_to` — the source only ever assigns
`mm[ref_id]` for `ref_id` in a diff set. -/
theorem lookup_updateRefsTo_untouched (rt : RefsTo) (scls : SObject)
    (od nd : Option (SMap String FieldValue)) (b : ObjId)
    (h : ∀ f ∈ scls.type.objectFields,
      b ∉ fieldIds nd f \ fieldIds od f ∧ b ∉ fieldIds od f \ fieldIds nd f) :
    SMap.lookup (updateRefsTo rt scls od nd) b = SMap.lookup rt b :=
  lookup_fieldsFold_untouched scls.type scls.id od nd scls.type.objectFields rt b h

/-- Referrers other than the mutated object, or keys outside the
mutated object's variant and object fields, are unaffected by
`_update_refs_to`. -/
theorem mem_refsLookup_upd_other (rt : RefsTo) (scls : SObject)
    (od nd : Option (SMap String FieldValue))
    (hnd : scls.type.objectFields.Nodup) (a b : ObjId) (T' : SclsType)
    (F : String)
    (h : ¬ (a = scls.id ∧ T' = scls.type ∧ F ∈ scls.type.objectFields)) :
    (a ∈ refsLookup (updateRefsTo rt scls od nd) b (T', F)) ↔
      a ∈ refsLookup rt b (T', F) := by
  rw [refsLookup_updateRefsTo rt scls od nd hnd]
  by_cases hc : T' = scls.type ∧ F ∈ scls.type.objectFields
  · have ha : a ≠ scls.id := fun he => h ⟨he, hc⟩
    rw [if_pos hc]
    by_cases hN : b ∈ fieldIds nd F \ fieldIds od F
    · simp [hN, Finset.mem_union, Finset.mem_singleton, ha]
    · by_cases hO : b ∈ fieldIds od F \ fieldIds nd F
      · simp [hN, hO, Finset.mem_sdiff, Finset.mem_singleton, ha]
      · simp [hN, hO]
  · rw [if_neg hc]

/-- Membership of the mutated object itself after `_update_refs_to`:
present exactly for the newly referenced identities, removed for the
no-longer referenced ones, unchanged elsewhere. -/
theorem mem_refsLookup_upd_self (rt : RefsTo) (scls : SObject)
    (od nd : Option (SMap String FieldValue))
    (hnd : scls.type.objectFields.Nodup) (b : ObjId) (T' : SclsType)
    (F : String) (hT : T' = scls.type) (hF : F ∈ scls.type.objectFields) :
    (scls.id ∈ refsLookup (updateRefsTo rt scls od nd) b (T', F)) ↔
      (b ∈ fieldIds nd F \ fieldIds od F ∨
        (scls.id ∈ refsLookup rt b (T', F) ∧
          b ∉ fieldIds od F \ fieldIds nd F)) := by
  rw [refsLookup_updateRefsTo rt scls od nd hnd, if_pos ⟨hT, hF⟩]
  by_cases hN : b ∈ fieldIds nd F \ fieldIds od F
  · have hO : b ∉ fieldIds od F \ fieldIds nd F := by
      simp only [Finset.mem_sdiff] at hN ⊢
      exact fun hc => hc.2 hN.1
    simp [hN, hO]
  · by_cases hO : b ∈ fieldIds od F \ fieldIds nd F
    · simp [hN, hO]
    · simp [hN, hO]

@[simp] theorem fieldIds_noneArg (f : String) : fieldIds none f = ∅ := rfl

theorem fieldIds_single (f : String) (v : FieldValue) (g : String) :
    fieldIds (some [(f, v)]) g = if f = g then refIdsOf (some v) else ∅ := by
  by_cases h : f = g <;> simp [fieldIds, SMap.lookup, h, refIdsOf]

theorem fieldIds_origSingle (data : SMap String FieldValue) (f g : String) :
    fieldIds (some (origSingle data f)) g =
      if f = g then refIdsOf (SMap.lookup data f) else ∅ := by
  unfold origSingle
  cases hd : SMap.lookup data f with
  | none =>
    by_cases h : f = g <;> simp [fieldIds, SMap.lookup, h, refIdsOf]
  | some ov =>
    rw [fieldIds_single]

/-- The central invariant of claim C2: `a` is recorded in `_refs_to`
under referenced identity `b` and key `(T, F)` exactly when the object
stored at `a` has variant `T`, `F` is one of that variant's object
fields, and the current value of field `F` in `a`'s data references
`b`. -/
def RefsConsistent (S : Schema) : Prop :=
  ∀ b T F a, a ∈ refsLookup S.refsTo b (T, F) ↔
    ∃ A, SMap.lookup S.idToType a = some A ∧ A.type = T ∧
      F ∈ T.objectFields ∧
      ∃ d, SMap.lookup S.idToData a = some d ∧
        b ∈ refIdsOf (SMap.lookup d F)

/-- Objects are stored in `_id_to_type` under their own identity. -/
def IdCoherent (S : Schema) : Prop :=
  ∀ a A, SMap.lookup S.idToType a = some A → A.id = a

/-- Every stored variant has a duplicate-free object-field list
(`get_object_fields()` returns distinct field descriptors). -/
def NodupFields (S : Schema) : Prop :=
  ∀ a A, SMap.lookup S.idToType a = some A → A.type.objectFields.Nodup

/-- Well-formedness of a catalog value. -/
def SchemaWF (S : Schema) : Prop :=
  RefsConsistent S ∧ IdCoherent S ∧ NodupFields S

/-- A successful `_set_obj_field` keeps the reverse-reference index
consistent with the object data, because the index is recomputed from
the old/new referenced-identity diff of the single mutated field. -/
theorem setField_preserves_wf (S : Schema) (i : ObjId) (F : String)
    (v : FieldValue) (S' : Schema) (hwf : SchemaWF S)
    (hok : S.setField i F v = Except.ok S') : SchemaWF S' := by
  obtain ⟨hC, hI, hN⟩ := hwf
  unfold Schema.setField at hok
  cases hd : SMap.lookup S.idToData i with
  | none =>
    simp only [hd] at hok
    exact absurd hok (by simp)
  | some data =>
    simp only [hd] at hok
    cases ht : SMap.lookup S.idToType i with
    | none =>
      simp only [ht] at hok
      exact absurd hok (by simp)
    | some scls =>
      simp only [ht] at hok
      cases hnr : S.setFieldNameIdx i scls data F v with
      | error e =>
        simp only [hnr] at hok
        exact absurd hok (by simp)
      | ok pr =>
        obtain ⟨n2i, s2i⟩ := pr
        simp only [hnr, Except.ok.injEq] at hok
        subst hok
        have hnds : scls.type.objectFields.Nodup := hN i scls ht
        have hid : scls.id = i := hI i scls ht
        refine ⟨?_, hI, hN⟩
        intro b T Fq a
        by_cases hc : a = scls.id ∧ T = scls.type ∧ Fq ∈ scls.type.objectFields
        · obtain ⟨ha, hT, hF⟩ := hc
          subst ha
          subst hT
          rw [mem_refsLookup_upd_self S.refsTo scls _ _ hnds b scls.type Fq
              rfl hF,
            fieldIds_single, fieldIds_origSingle,
            hC b scls.type Fq scls.id]
          by_cases hFq : F = Fq
          · subst hFq
            simp only [hid, ht, hd, Option.some.injEq, exists_eq_left',
              SMap.lookup_set_self, eq_self_iff_true, if_true, hF,
              true_and, and_true, Finset.mem_sdiff]
            tauto
          · have hFq' : ¬ Fq = F := fun e => hFq e.symm
            simp only [hid, ht, hd, Option.some.injEq, exists_eq_left',
              SMap.lookup_set_self, SMap.lookup_set, hFq, hFq', if_false,
              Finset.empty_sdiff, Finset.not_mem_empty, false_or,
              not_false_iff, and_true, hF, true_and]
        · rw [mem_refsLookup_upd_other S.refsTo scls _ _ hnds a b T Fq hc,
            hC b T Fq a]
          by_cases hai : a = i
          · subst hai
            have hnc : ¬ (T = scls.type ∧ Fq ∈ scls.type.objectFields) :=
              fun hh => hc ⟨hid.symm, hh⟩
            have hfalse : ∀ dm : SMap ObjId (SMap String FieldValue),
                ¬ ∃ A, SMap.lookup S.idToType a = some A ∧ A.type = T ∧
                  Fq ∈ T.objectFields ∧
                  ∃ d, SMap.lookup dm a = some d ∧
                    b ∈ refIdsOf (SMap.lookup d Fq) := by
              rintro dm ⟨A, hA, hAT, hAF, -⟩
              rw [ht, Option.some.injEq] at hA
              subst hA
              refine hnc ⟨hAT.symm, ?_⟩
              rw [hAT]
              exact hAF
            exact iff_of_false (hfalse S.idToData)
              (hfalse (SMap.set S.idToData a (SMap.set data F v)))
          · have hrw : SMap.lookup
                (SMap.set S.idToData i (SMap.set data F v)) a =
                SMap.lookup S.idToData a :=
              SMap.lookup_set_ne S.idToData i (SMap.set data F v) a hai
            simp only [hrw]

/-- When the filter variant or field does not match the stored object's
variant and object fields, no reference chain exists. -/
theorem not_exists_refchain (S : Schema) (i : ObjId) (scls : SObject)
    (ht : SMap.lookup S.idToType i = some scls) (T : SclsType) (Fq : String)
    (b : ObjId) (hnc : ¬ (T = scls.type ∧ Fq ∈ scls.type.objectFields)) :
    ∀ dm : SMap ObjId (SMap String FieldValue),
      ¬ ∃ A, SMap.lookup S.idToType i = some A ∧ A.type = T ∧
        Fq ∈ T.objectFields ∧
        ∃ d, SMap.lookup dm i = some d ∧
          b ∈ refIdsOf (SMap.lookup d Fq) := by
  rintro dm ⟨A, hA, hAT, hAF, -⟩
  rw [ht, Option.some.injEq] at hA
  subst hA
  refine hnc ⟨hAT.symm, ?_⟩
  rw [hAT]
  exact hAF

/-- The refs-consistency core of `_unset_obj_field`: deleting field
`field` (old value `ov`) and recomputing the reverse-reference index
with `orig_data = {field: ov}`, `new_data = None` keeps the index
consistent, whatever happens to the name indices and modules. -/
theorem unset_refs_consistent (S : Schema) (i : ObjId) (field : String)
    (data : SMap String FieldValue) (ov : FieldValue) (scls : SObject)
    (mods : SMap String ObjId) (n2i : SMap SName ObjId)
    (s2i : SMap RefsKey (Finset ObjId))
    (hC : RefsConsistent S) (hI : IdCoherent S) (hN : NodupFields S)
    (hd : SMap.lookup S.idToData i = some data)
    (ht : SMap.lookup S.idToType i = some scls)
    (hov : SMap.lookup data field = some ov) :
    RefsConsistent ({ modules := mods,
                      idToData := S.idToData.set i (data.del field),
                      idToType := S.idToType, shortnameToId := s2i,
                      nameToId := n2i,
                      refsTo := updateRefsTo S.refsTo scls
                        (some [(field, ov)]) none,
                      generation := S.generation + 1 } : Schema) := by
  have hnds : scls.type.objectFields.Nodup := hN i scls ht
  have hid : scls.id = i := hI i scls ht
  intro b T Fq a
  by_cases hc : a = scls.id ∧ T = scls.type ∧ Fq ∈ scls.type.objectFields
  · obtain ⟨ha, hT, hF⟩ := hc
    subst ha
    subst hT
    rw [mem_refsLookup_upd_self S.refsTo scls _ _ hnds b scls.type Fq rfl hF,
      fieldIds_single, hC b scls.type Fq scls.id]
    by_cases hFq : field = Fq
    · subst hFq
      simp only [hid, ht, hd, hov, Option.some.injEq, exists_eq_left',
        SMap.lookup_set_self, SMap.lookup_del, eq_self_iff_true, if_true,
        hF, true_and, and_true, fieldIds_noneArg, Finset.empty_sdiff,
        Finset.sdiff_empty, Finset.not_mem_empty, false_or, refIdsOf]
      tauto
    · have hFq2 : ¬ Fq = field := fun e => hFq e.symm
      simp only [hid, ht, hd, Option.some.injEq, exists_eq_left',
        SMap.lookup_set_self, SMap.lookup_del, hFq, hFq2, if_false,
        fieldIds_noneArg, Finset.empty_sdiff, Finset.sdiff_empty,
        Finset.not_mem_empty, false_or, not_false_iff, and_true, hF,
        true_and]
  · rw [mem_refsLookup_upd_other S.refsTo scls _ _ hnds a b T Fq hc,
      hC b T Fq a]
    by_cases hai : a = i
    · subst hai
      have hnc : ¬ (T = scls.type ∧ Fq ∈ scls.type.objectFields) :=
        fun hh => hc ⟨hid.symm, hh⟩
      exact iff_of_false (not_exists_refchain S a scls ht T Fq b hnc S.idToData)
        (not_exists_refchain S a scls ht T Fq b hnc
          (SMap.set S.idToData a (SMap.del data field)))
    · have hrw : SMap.lookup
          (SMap.set S.idToData i (SMap.del data field)) a =
          SMap.lookup S.idToData a :=
        SMap.lookup_set_ne S.idToData i (SMap.del data field) a hai
      simp only [hrw]

/-- Claim C2, unset case: `_unset_obj_field` preserves well-formedness. -/
theorem unsetField_preserves_wf (S : Schema) (i : ObjId) (field : String)
    (hwf : SchemaWF S) : SchemaWF (S.unsetField i field) := by
  obtain ⟨hC, hI, hN⟩ := hwf
  unfold Schema.unsetField
  cases hd : SMap.lookup S.idToData i with
  | none => exact ⟨hC, hI, hN⟩
  | some data =>
    by_cases hname : field = "name" ∧ (dataName? data).isSome
    · simp only [if_pos hname]
      cases ht : SMap.lookup S.idToType i with
      | none =>
        simp only [ht]
        exact ⟨hC, hI, hN⟩
      | some scls =>
        cases hov : SMap.lookup data field with
        | none =>
          simp only [hov]
          exact ⟨hC, hI, hN⟩
        | some ov =>
          simp only [hov]
          cases hun : S.updateObjName i scls (dataName? data) none with
          | error e =>
            simp only [hun]
            exact ⟨hC, hI, hN⟩
          | ok pr =>
            obtain ⟨n2i, s2i⟩ := pr
            simp only [hun]
            exact ⟨unset_refs_consistent S i field data ov scls S.modules
              n2i s2i hC hI hN hd ht hov, hI, hN⟩
    · simp only [if_neg hname]
      cases hov : SMap.lookup data field with
      | none =>
        simp only [hov]
        exact ⟨hC, hI, hN⟩
      | some ov =>
        simp only [hov]
        cases ht : SMap.lookup S.idToType i with
        | none =>
          simp only [ht]
          exact ⟨hC, hI, hN⟩
        | some scls =>
          simp only [ht]
          exact ⟨unset_refs_consistent S i field data ov scls S.modules
            S.nameToId S.shortnameToId hC hI hN hd ht hov, hI, hN⟩

/-- Claim C2, delete case: a successful `_delete` preserves
well-formedness; all outgoing reverse-reference entries of the deleted
object are removed. -/
theorem delete_preserves_wf (S : Schema) (obj : SObject) (S' : Schema)
    (hwf : SchemaWF S)
    (hobj : SMap.lookup S.idToType obj.id = some obj)
    (hok : S.delete obj = Except.ok S') : SchemaWF S' := by
  obtain ⟨hC, hI, hN⟩ := hwf
  unfold Schema.delete at hok
  cases hd : SMap.lookup S.idToData obj.id with
  | none =>
    simp only [hd] at hok
    exact absurd hok (by simp)
  | some data =>
    simp only [hd] at hok
    cases hdn : dataName? data with
    | none =>
      simp only [hdn] at hok
      exact absurd hok (by simp)
    | some name =>
      simp only [hdn] at hok
      cases ht2 : SMap.lookup S.idToType obj.id with
      | none =>
        simp only [ht2] at hok
        exact absurd hok (by simp)
      | some tobj =>
        simp only [ht2] at hok
        cases hun : S.updateObjName obj.id tobj (some name) none with
        | error e =>
          simp only [hun] at hok
          exact absurd hok (by simp)
        | ok pr =>
          obtain ⟨n2i, s2i⟩ := pr
          simp only [hun, Except.ok.injEq] at hok
          subst hok
          have hnds : obj.type.objectFields.Nodup := hN obj.id obj hobj
          refine ⟨?_, ?_, ?_⟩
          · intro b T Fq a
            by_cases hc : a = obj.id ∧ T = obj.type ∧
                Fq ∈ obj.type.objectFields
            · obtain ⟨ha, hT, hF⟩ := hc
              subst ha
              subst hT
              rw [mem_refsLookup_upd_self S.refsTo obj _ _ hnds b obj.type
                  Fq rfl hF,
                hC b obj.type Fq obj.id]
              simp only [hobj, hd, Option.some.injEq, exists_eq_left',
                SMap.lookup_del, eq_self_iff_true, if_true, hF, true_and,
                and_true, fieldIds_noneArg, Finset.empty_sdiff,
                Finset.sdiff_empty, Finset.not_mem_empty, false_or,
                false_and, exists_false, iff_false, not_and, not_not]
              refine iff_of_false ?_ ?_
              · rintro ⟨h1, h2⟩
                exact h2 h1
              · rintro ⟨A, hA, -⟩
                cases hA
            · rw [mem_refsLookup_upd_other S.refsTo obj _ _ hnds a b T Fq hc,
                hC b T Fq a]
              by_cases hai : a = obj.id
              · subst hai
                have hnc : ¬ (T = obj.type ∧ Fq ∈ obj.type.objectFields) :=
                  fun hh => hc ⟨rfl, hh⟩
                refine iff_of_false
                  (not_exists_refchain S obj.id obj hobj T Fq b hnc
                    S.idToData) ?_
                rintro ⟨A, hA, -⟩
                rw [SMap.lookup_del, if_pos rfl] at hA
                cases hA
              · simp only [SMap.lookup_del, hai, if_false]
          · intro a A h
            rw [SMap.lookup_del] at h
            by_cases hai : a = obj.id
            · rw [if_pos hai] at h
              cases h
            · rw [if_neg hai] at h
              exact hI a A h
          · intro a A h
            rw [SMap.lookup_del] at h
            by_cases hai : a = obj.id
            · rw [if_pos hai] at h
              cases h
            · rw [if_neg hai] at h
              exact hN a A h

/-- The refs-consistency core of `_add`: registering a fresh object's
data with `orig_data = None` makes the index record exactly the new
object's references, whatever the name indices and modules updates. -/
theorem add_refs_consistent (S : Schema) (i : ObjId) (scls : SObject)
    (data : SMap String FieldValue)
    (hC : RefsConsistent S)
    (hid : scls.id = i) (hnds : scls.type.objectFields.Nodup)
    (htn : SMap.lookup S.idToType i = none)
    (mods : SMap String ObjId) (n2i : SMap SName ObjId)
    (s2i : SMap RefsKey (Finset ObjId)) :
    RefsConsistent ({ modules := mods,
                      idToData := S.idToData.set i data,
                      idToType := S.idToType.set i scls,
                      shortnameToId := s2i, nameToId := n2i,
                      refsTo := updateRefsTo S.refsTo scls none (some data),
                      generation := S.generation + 1 } : Schema) := by
  intro b T Fq a
  by_cases hc : a = scls.id ∧ T = scls.type ∧ Fq ∈ scls.type.objectFields
  · obtain ⟨ha, hT, hF⟩ := hc
    subst ha
    subst hT
    rw [mem_refsLookup_upd_self S.refsTo scls _ _ hnds b scls.type Fq rfl hF,
      hC b scls.type Fq scls.id]
    simp only [hid, htn, SMap.lookup_set_self, Option.some.injEq,
      exists_eq_left', fieldIds_noneArg, Finset.sdiff_empty,
      Finset.empty_sdiff, Finset.not_mem_empty, false_and, exists_false,
      and_false, false_or, or_false, not_false_iff, and_true,
      eq_self_iff_true, true_and, hF, fieldIds]
    constructor
    · rintro (h | ⟨A, hA, -⟩)
      · exact h
      · cases hA
    · intro h
      exact Or.inl h
  · rw [mem_refsLookup_upd_other S.refsTo scls _ _ hnds a b T Fq hc,
      hC b T Fq a]
    by_cases hai : a = i
    · subst hai
      refine iff_of_false ?_ ?_
      · rintro ⟨A, hA, -⟩
        rw [htn] at hA
        cases hA
      · rintro ⟨A, hA, hAT, hAF, -⟩
        rw [SMap.lookup_set_self, Option.some.injEq] at hA
        subst hA
        refine hc ⟨hid.symm, hAT.symm, ?_⟩
        rw [hAT]
        exact hAF
    · simp only [SMap.lookup_set_ne S.idToType i scls a hai,
        SMap.lookup_set_ne S.idToData i data a hai]

/-- Claim C2, add case: a successful `_add` of a fresh identity
preserves well-formedness. -/
theorem add_preserves_wf (S : Schema) (i : ObjId) (scls : SObject)
    (data : SMap String FieldValue) (S' : Schema) (hwf : SchemaWF S)
    (hid : scls.id = i) (hnds : scls.type.objectFields.Nodup)
    (htn : SMap.lookup S.idToType i = none)
    (hok : S.add i scls data = Except.ok S') : SchemaWF S' := by
  obtain ⟨hC, hI, hN⟩ := hwf
  have hIdCo : IdCoherent ({ modules := S.modules,
                             idToData := S.idToData.set i data,
                             idToType := S.idToType.set i scls,
                             shortnameToId := [], nameToId := [],
                             refsTo := [], generation := 0 } : Schema) := by
    intro a A h
    rw [SMap.lookup_set] at h
    by_cases hai : a = i
    · rw [if_pos hai] at h
      rw [Option.some.injEq] at h
      subst h
      rw [hid, hai]
    · rw [if_neg hai] at h
      exact hI a A h
  have hNod : NodupFields ({ modules := S.modules,
                             idToData := S.idToData.set i data,
                             idToType := S.idToType.set i scls,
                             shortnameToId := [], nameToId := [],
                             refsTo := [], generation := 0 } : Schema) := by
    intro a A h
    rw [SMap.lookup_set] at h
    by_cases hai : a = i
    · rw [if_pos hai] at h
      rw [Option.some.injEq] at h
      subst h
      exact hnds
    · rw [if_neg hai] at h
      exact hN a A h
  unfold Schema.add at hok
  cases hn : SMap.lookup data "name" with
  | none =>
    simp only [hn] at hok
    exact absurd hok (by simp)
  | some fv =>
    cases fv with
    | scalar s =>
      simp only [hn] at hok
      exact absurd hok (by simp)
    | ref r =>
      simp only [hn] at hok
      exact absurd hok (by simp)
    | refColl rs =>
      simp only [hn] at hok
      exact absurd hok (by simp)
    | nameVal name =>
      simp only [hn] at hok
      cases hnl : SMap.lookup S.nameToId name with
      | some j =>
        simp only [hnl, Option.isSome_some, if_true] at hok
        exact absurd hok (by simp)
      | none =>
        simp only [hnl, Option.isSome_none, Bool.false_eq_true,
          if_false] at hok
        cases hun : S.updateObjName i scls none (some name) with
        | error e =>
          simp only [hun] at hok
          exact absurd hok (by simp)
        | ok pr =>
          obtain ⟨n2i, s2i⟩ := pr
          simp only [hun] at hok
          cases hmod : scls.type.isModule with
          | true =>
            simp only [hmod, if_true] at hok
            rw [Except.ok.injEq] at hok
            subst hok
            exact ⟨add_refs_consistent S i scls data hC hid hnds htn
              (SMap.set S.modules name.short i) n2i s2i, hIdCo, hNod⟩
          | false =>
            simp only [hmod, Bool.false_eq_true, if_false] at hok
            cases hm : name.module with
            | none =>
              simp only [hm] at hok
              exact absurd hok (by simp)
            | some m =>
              simp only [hm] at hok
              cases hml : SMap.lookup S.modules m with
              | none =>
                simp only [hml, Option.isSome_none, Bool.false_eq_true,
                  if_false] at hok
                exact absurd hok (by simp)
              | some mid =>
                simp only [hml, Option.isSome_some, if_true,
                  Except.ok.injEq] at hok
                subst hok
                exact ⟨add_refs_consistent S i scls data hC hid hnds htn
                  S.modules n2i s2i, hIdCo, hNod⟩

/-- In a well-formed catalog, membership of `get_referrers(B, T, F)`
coincides with the stored object actually referencing `B` through its
field `F`. -/
theorem mem_getReferrers (S : Schema) (hC : RefsConsistent S)
    (hI : IdCoherent S) (A B : SObject) (T : SclsType) (F : String) :
    A ∈ S.getReferrers B T F ↔
      SMap.lookup S.idToType A.id = some A ∧ A.type = T ∧
        F ∈ T.objectFields ∧
        ∃ d, SMap.lookup S.idToData A.id = some d ∧
          B.id ∈ refIdsOf (SMap.lookup d F) := by
  have hgr : A ∈ S.getReferrers B T F ↔
      ∃ a, a ∈ refsLookup S.refsTo B.id (T, F) ∧
        SMap.lookup S.idToType a = some A := by
    unfold Schema.getReferrers refsLookup
    cases hrt : SMap.lookup S.refsTo B.id with
    | none => simp [hrt]
    | some refs =>
      simp [hrt, List.mem_filterMap, Finset.mem_sort, List.mem_toFinset]
  rw [hgr]
  constructor
  · rintro ⟨a, hmem, hA⟩
    obtain ⟨A2, hA2, hT2, hF2, d, hd2, hb2⟩ := (hC B.id T F a).mp hmem
    rw [hA, Option.some.injEq] at hA2
    subst hA2
    have hida : A.id = a := hI a A hA
    subst hida
    exact ⟨hA, hT2, hF2, d, hd2, hb2⟩
  · rintro ⟨hA, hT, hF, d, hd, hb⟩
    exact ⟨A.id, (hC B.id T F A.id).mpr ⟨A, hA, hT, hF, d, hd, hb⟩, hA⟩

/-- The diff optimisation of `_set_obj_field`: an identity referenced
both by the old and by the new field value keeps a structurally
untouched `_refs_to` entry. -/
theorem setField_untouched (S : Schema) (i : ObjId) (F : String)
    (v : FieldValue) (d : SMap String FieldValue) (S' : Schema) (b : ObjId)
    (hd : SMap.lookup S.idToData i = some d)
    (hok : S.setField i F v = Except.ok S')
    (hb1 : b ∈ refIdsOf (some v))
    (hb2 : b ∈ refIdsOf (SMap.lookup d F)) :
    SMap.lookup S'.refsTo b = SMap.lookup S.refsTo b := by
  unfold Schema.setField at hok
  simp only [hd] at hok
  cases ht : SMap.lookup S.idToType i with
  | none =>
    simp only [ht] at hok
    exact absurd hok (by simp)
  | some scls =>
    simp only [ht] at hok
    cases hnr : S.setFieldNameIdx i scls d F v with
    | error e =>
      simp only [hnr] at hok
      exact absurd hok (by simp)
    | ok pr =>
      obtain ⟨n2i, s2i⟩ := pr
      simp only [hnr, Except.ok.injEq] at hok
      subst hok
      apply lookup_updateRefsTo_untouched
      intro f hf
      rw [fieldIds_single, fieldIds_origSingle]
      by_cases hfF : F = f
      · simp only [if_pos hfF]
        constructor
        · rw [Finset.mem_sdiff]
          exact fun hx => hx.2 hb2
        · rw [Finset.mem_sdiff]
          exact fun hx => hx.2 hb1
      · simp [hfF]

/-- C2: in a well-formed catalog, `A ∈ get_referrers(B, scls_type=T,
field_name=F)` holds exactly when `A`'s field `F` currently stores a
reference (single or collection) to `B`; the four mutating operations
(`add`, `delete`, `set_field`, `unset_field`) preserve this
correspondence; and `set_field` diffs the old and new referenced-identity
sets, leaving the `_refs_to` entry of an identity referenced by both old
and new value structurally untouched. -/
theorem backrefs_correspondence :
    (∀ (S : Schema) (A B : SObject) (T : SclsType) (F : String),
      SchemaWF S →
        (A ∈ S.getReferrers B T F ↔
          SMap.lookup S.idToType A.id = some A ∧ A.type = T ∧
            F ∈ T.objectFields ∧
            ∃ d, SMap.lookup S.idToData A.id = some d ∧
              B.id ∈ refIdsOf (SMap.lookup d F))) ∧
    (∀ (S : Schema) (i : ObjId) (scls : SObject)
        (data : SMap String FieldValue) (S' : Schema),
      SchemaWF S → scls.id = i → scls.type.objectFields.Nodup →
        SMap.lookup S.idToType i = none →
        S.add i scls data = Except.ok S' → SchemaWF S') ∧
    (∀ (S : Schema) (obj : SObject) (S' : Schema),
      SchemaWF S → SMap.lookup S.idToType obj.id = some obj →
        S.delete obj = Except.ok S' → SchemaWF S') ∧
    (∀ (S : Schema) (i : ObjId) (F : String) (v : FieldValue)
        (S' : Schema),
      SchemaWF S → S.setField i F v = Except.ok S' → SchemaWF S') ∧
    (∀ (S : Schema) (i : ObjId) (F : String),
      SchemaWF S → SchemaWF (S.unsetField i F)) ∧
    (∀ (S : Schema) (i : ObjId) (F : String) (v : FieldValue)
        (d : SMap String FieldValue) (S' : Schema) (b : ObjId),
      SMap.lookup S.idToData i = some d →
        S.setField i F v = Except.ok S' →
        b ∈ refIdsOf (some v) → b ∈ refIdsOf (SMap.lookup d F) →
        SMap.lookup S'.refsTo b = SMap.lookup S.refsTo b) :=
  ⟨fun S A B T F hwf => mem_getReferrers S hwf.1 hwf.2.1 A B T F,
   fun S i scls data S' hwf h1 h2 h3 h4 =>
     add_preserves_wf S i scls data S' hwf h1 h2 h3 h4,
   fun S obj S' hwf h1 h2 => delete_preserves_wf S obj S' hwf h1 h2,
   fun S i F v S' hwf h => setField_preserves_wf S i F v S' hwf h,
   fun S i F hwf => unsetField_preserves_wf S i F hwf,
   fun S i F v d S' b h1 h2 h3 h4 =>
     setField_untouched S i F v d S' b h1 h2 h3 h4⟩

/-- Sample variant tag used by concrete witnesses. -/
def tType : SclsType := { tag := "Type", objectFields := [], isModule := false, hasSnCache := false }

/-- Sample qualified name used by concrete witnesses. -/
def nInt : SName := { module := some "std", short := "int64" }

/-- Concrete one-object catalog used by the witnesses: module `std` and a
type named `std::int64` with identity 1. -/
def schema1 : Schema :=
  { modules := [("std", 0)]
  , idToData := [(1, [("name", FieldValue.nameVal nInt)])]
  , idToType := [(1, { id := 1, type := tType })]
  , shortnameToId := []
  , nameToId := [(nInt, 1)]
  , refsTo := []
  , generation := 0 }

/-- C1: if `fields.name` is already a key of `name_to_id`, then
`add(identity, variant, fields)` fails with the naming-conflict
`SchemaError` raised at the top of `Schema._add`.  The model is a pure
function, so the failed add produces no schema value at all and every
lookup on the original reference `S` afterwards is literally a lookup on
the unchanged value `S`. -/
theorem add_name_conflict (S : Schema) (i : ObjId) (scls : SObject)
    (data : SMap String FieldValue) (name : SName) (j : ObjId)
    (hname : SMap.lookup data "name" = some (FieldValue.nameVal name))
    (hdup : SMap.lookup S.nameToId name = some j) :
    S.add i scls data = Except.error (SchemaError.nameAlreadyPresent name) := by
  simp [Schema.add, hname, hdup]

/-- Witness for `add_name_conflict` at a concrete catalog: re-adding the
name `std::int64` under a fresh identity fails with the conflict error. -/
theorem add_name_conflict_witness :
    schema1.add 2 { id := 2, type := tType }
        [("name", FieldValue.nameVal nInt)]
      = Except.error (SchemaError.nameAlreadyPresent nInt) :=
  add_name_conflict schema1 2 { id := 2, type := tType }
    [("name", FieldValue.nameVal nInt)] nInt 1 rfl rfl

/-- C10: `_unset_obj_field` never raises for a missing target: an
identity not present in `_id_to_data`, or a non-`name` field not present
in the object's data, returns the original schema value `S` itself. -/
theorem unsetField_missing (S : Schema) (i : ObjId) (F : String) :
    (SMap.lookup S.idToData i = none → S.unsetField i F = S) ∧
    (∀ d, SMap.lookup S.idToData i = some d → F ≠ "name" →
      SMap.lookup d F = none → S.unsetField i F = S) := by
  refine ⟨fun h => ?_, fun d hd hF hlf => ?_⟩
  · simp [Schema.unsetField, h]
  · have hcond : ¬ (F = "name" ∧ (dataName? d).isSome) := fun hc => hF hc.1
    simp [Schema.unsetField, hd, hcond, hlf]

/-- Witness for `unsetField_missing`: unsetting a field of an absent
identity, and an absent field of a present identity, both return the
original catalog value. -/
theorem unsetField_missing_witness :
    schema1.unsetField 42 "bases" = schema1 ∧
      schema1.unsetField 1 "bases" = schema1 :=
  ⟨(unsetField_missing schema1 42 "bases").1 rfl,
   (unsetField_missing schema1 1 "bases").2 [("name", FieldValue.nameVal nInt)]
     rfl (by decide) rfl⟩

/-- Variant with one reference-typed object field, for the C2 witness. -/
def tObj : SclsType :=
  { tag := "Obj", objectFields := ["bases"], isModule := false,
    hasSnCache := false }

/-- Witness object with identity 1. -/
def objA : SObject := { id := 1, type := tObj }

/-- Witness object with identity 2 (the referenced one). -/
def objB : SObject := { id := 2, type := tObj }

/-- Field data of `objA`: a name and a `bases` collection referencing
identity 2. -/
def dataA : SMap String FieldValue :=
  [("name", FieldValue.nameVal { module := some "std", short := "A" }),
   ("bases", FieldValue.refColl [2])]

/-- Empty catalog knowing only module `std`. -/
def schema0 : Schema :=
  { modules := [("std", 0)], idToData := [], idToType := [],
    shortnameToId := [], nameToId := [], refsTo := [], generation := 0 }

/-- The catalog obtained by adding `objA` to `schema0`. -/
def schema2 : Schema := (schema0.add 1 objA dataA).toOption.getD schema0

/-- The empty catalog is well-formed. -/
theorem schema0_wf : SchemaWF schema0 := by
  refine ⟨?_, ?_, ?_⟩
  · intro b T F a
    constructor
    · intro h
      simp [refsLookup, schema0, SMap.lookup] at h
    · rintro ⟨A, hA, -⟩
      simp [schema0, SMap.lookup] at hA
  · rintro a A hA
    simp [schema0, SMap.lookup] at hA
  · rintro a A hA
    simp [schema0, SMap.lookup] at hA

/-- Witness for `backrefs_correspondence`: after adding `objA` (whose
`bases` field references identity 2), `objA` is a referrer of `objB`
under `(tObj, bases)`; the well-formedness of the derived catalog comes
from the add-preservation conjunct. -/
theorem backrefs_correspondence_witness :
    objA ∈ schema2.getReferrers objB tObj "bases" :=
  have hadd : schema0.add 1 objA dataA = Except.ok schema2 := rfl
  have hwf2 : SchemaWF schema2 :=
    backrefs_correspondence.2.1 schema0 1 objA dataA schema2 schema0_wf rfl
      (by decide) rfl hadd
  (backrefs_correspondence.1 schema2 objA objB tObj "bases" hwf2).mpr
    ⟨rfl, rfl, by decide, dataA, rfl, by decide⟩

/-- Model of `_get_by_name(name, type=...)` (single type filter): look
the name up in `name_to_id`, fetch the object, and apply the
`isinstance` filter (class equality in the model).  The source's direct
`_id_to_type[obj_id]` read is totalised to `none` (unreachable while the
indices are consistent). -/
def Schema.getByName? (S : Schema) (name : SName) (tf : Option SclsType) :
    Option SObject :=
  match SMap.lookup S.nameToId name with
  | none => none
  | some oid =>
    match SMap.lookup S.idToType oid with
    | none => none
    | some obj =>
      match tf with
      | none => some obj
      | some T => if obj.type = T then some obj else none

/-- Model of `Schema.get(name, type=...)` with `module_aliases=None` and
no default: the `_get` resolution order — fully-qualified lookup when the
name carries a module, else the bare unqualified lookup, else the
implicit `std` builtins fallback.  A total miss (where the source raises
`ItemNotFoundError`) is `none`. -/
def Schema.get? (S : Schema) (name : SName) (tf : Option SclsType) :
    Option SObject :=
  match name.module with
  | some m => S.getByName? { module := some m, short := name.short } tf
  | none =>
    match S.getByName? { module := none, short := name.short } tf with
    | some r => some r
    | none => S.getByName? { module := some "std", short := name.short } tf

/-- Modelled from the spec: the `objects.py` field accessors used by
`_get_descendants`/`_find_children` (`get__virtual_children`,
`get_bases`, `get_name`) read the named field from the object's stored
data; `objects.py` is not under `src/`. -/
def Schema.getFieldValue? (S : Schema) (i : ObjId) (f : String) :
    Option FieldValue :=
  (SMap.lookup S.idToData i).bind (fun d => SMap.lookup d f)

/-- Modelled from the spec: `get_bases(schema).objects(schema)` resolves
the `bases` collection to objects via the identity index. -/
def Schema.getBases (S : Schema) (o : SObject) : List SObject :=
  match S.getFieldValue? o.id "bases" with
  | some (FieldValue.refColl ids) => ids.filterMap (SMap.lookup S.idToType)
  | some (FieldValue.ref r) => (SMap.lookup S.idToType r).toList
  | _ => []

/-- Modelled from the spec: `get_name(schema)` reads the `name` field. -/
def Schema.getName? (S : Schema) (o : SObject) : Option SName :=
  match S.getFieldValue? o.id "name" with
  | some (FieldValue.nameVal n) => some n
  | _ => none

/-- Model of `Schema._find_children(scls)`: the names of every stored
object of the same variant (the `get_objects(type=type(scls))` iterator)
whose declared `bases` contain `scls`. -/
def Schema.findChildren (S : Schema) (scls : SObject) : List SName :=
  ((S.idToType.map Prod.snd).filter
    (fun o => decide (o.type = scls.type) &&
      decide (scls ∈ S.getBases o))).filterMap S.getName?

/-- Model of the child-set computation of `_get_descendants`: the
`_virtual_children` names when that field is present (with
`material_type` — defined in `types.py`, outside `src/` — modelled from
the spec as the object itself), otherwise `_find_children`; each name is
then resolved through `get(n, type=type(scls))`.  A name failing to
resolve raises `ItemNotFoundError` in the source and is dropped here
(unreachable for consistent catalogs). -/
def Schema.childrenOf (S : Schema) (scls : SObject) : Finset SObject :=
  let childNames : List SName :=
    match S.getFieldValue? scls.id "_virtual_children" with
    | some (FieldValue.refColl ids) =>
      ids.filterMap (fun r => (SMap.lookup S.idToType r).bind S.getName?)
    | _ => S.findChildren scls
  (childNames.filterMap (fun n => S.get? n (some scls.type))).toFinset

/-- Model of `Schema._get_descendants(scls, max_depth=..., depth=...)`:
the direct children are always collected; the recursion into children
runs only when `max_depth is not None and depth < max_depth`.  In
particular, with `max_depth` omitted (`none`) no recursion happens at
all. -/
def Schema.getDescendants (S : Schema) (scls : SObject) :
    Option Nat → Nat → Finset SObject
  | none, _ => ∅ ∪ S.childrenOf scls
  | some md, depth =>
    (if h : depth < md then
      (S.childrenOf scls).biUnion
        (fun c => S.getDescendants c (some md) (depth + 1))
    else ∅) ∪ S.childrenOf scls
termination_by o d => o.getD 0 - d
decreasing_by
  simp_wf
  omega

/-- Chain object a (base of b) for the C9 counterexample. -/
def objChainA : SObject := { id := 1, type := tObj }

/-- Chain object b (child of a, base of c). -/
def objChainB : SObject := { id := 2, type := tObj }

/-- Chain object c (child of b, grandchild of a). -/
def objChainC : SObject := { id := 3, type := tObj }

/-- Concrete catalog holding the inheritance chain a <- b <- c. -/
def chainSchema : Schema :=
  { modules := [("m", 0)]
  , idToData :=
      [(1, [("name", FieldValue.nameVal { module := some "m", short := "a" })]),
       (2, [("name", FieldValue.nameVal { module := some "m", short := "b" }),
            ("bases", FieldValue.refColl [1])]),
       (3, [("name", FieldValue.nameVal { module := some "m", short := "c" }),
            ("bases", FieldValue.refColl [2])])]
  , idToType := [(1, objChainA), (2, objChainB), (3, objChainC)]
  , shortnameToId := []
  , nameToId := [({ module := some "m", short := "a" }, 1),
                 ({ module := some "m", short := "b" }, 2),
                 ({ module := some "m", short := "c" }, 3)]
  , refsTo := []
  , generation := 0 }

/-- Counterexample to C9 as stated: on the chain a <- b <- c, calling
`get_descendants` on `a` with `max_depth` omitted returns only the
direct child `b` — the grandchild `c` (which is a direct child of `b`)
is missing, so the result is not the transitive closure of the child
relation: `max_depth is None` disables the recursion entirely. -/
theorem getDescendants_unbounded_counterexample :
    chainSchema.getDescendants objChainA none 0 = {objChainB} ∧
    objChainC ∉ chainSchema.getDescendants objChainA none 0 ∧
    objChainC ∈ chainSchema.getDescendants objChainB none 0 := by
  refine ⟨?_, ?_, ?_⟩ <;>
  · simp only [Schema.getDescendants]
    decide

/-- C9 amended: `get_descendants(object, max_depth)` collects the direct
children of every visited object and recurses into them only while
`max_depth` is supplied and `depth < max_depth`; when `max_depth` is
omitted there is no recursion at all — the result is exactly the set of
direct children, not the transitive closure. -/
theorem getDescendants_recursion (S : Schema) (scls : SObject) :
    (∀ depth, S.getDescendants scls none depth = S.childrenOf scls) ∧
    (∀ md depth, md ≤ depth →
      S.getDescendants scls (some md) depth = S.childrenOf scls) ∧
    (∀ md depth, depth < md →
      S.getDescendants scls (some md) depth =
        (S.childrenOf scls).biUnion
          (fun c => S.getDescendants c (some md) (depth + 1)) ∪
          S.childrenOf scls) := by
  refine ⟨fun depth => ?_, fun md depth h => ?_, fun md depth h => ?_⟩
  · rw [Schema.getDescendants]
    exact Finset.empty_union _
  · rw [Schema.getDescendants, dif_neg (Nat.not_lt.mpr h)]
    exact Finset.empty_union _
  · rw [Schema.getDescendants, dif_pos h]

/-- Witness for `getDescendants_recursion`: concrete evaluations of the
no-recursion cases on the chain catalog. -/
theorem getDescendants_recursion_witness :
    chainSchema.getDescendants objChainA none 0 =
      chainSchema.childrenOf objChainA ∧
    chainSchema.getDescendants objChainA (some 0) 1 =
      chainSchema.childrenOf objChainA :=
  ⟨(getDescendants_recursion chainSchema objChainA).1 0,
   (getDescendants_recursion chainSchema objChainA).2.1 0 1 (by decide)⟩

/-- Model of `ft.ParameterKind`. -/
inductive ParamKind where
  | positional
  | namedOnly
  | variadic
deriving DecidableEq

/-- Model of `ft.TypeModifier`. -/
inductive TypeModifier where
  | setOf
  | optionalMod
  | singleton
deriving DecidableEq

/-- Modelled from the spec: the type objects of `types.py` (outside
`src/`).  `anyT` is the polymorphic placeholder `std::any`; `arr`
covers the container types whose element may itself be polymorphic
(variadic parameter types are arrays). -/
inductive SType where
  | base (name : String)
  | anyT
  | arr (elem : SType)
deriving DecidableEq

/-- Modelled from the spec: `Type.is_polymorphic()` — the placeholder or
a container containing it. -/
def SType.isPolymorphic : SType → Bool
  | SType.base _ => false
  | SType.anyT => true
  | SType.arr t => t.isPolymorphic

/-- Modelled from the spec: `Type.resolve_polymorphic(other)` — resolve
the placeholder inside `self` against the concrete type `other`,
returning the concrete type the placeholder stands for, or `none`. -/
def SType.resolvePolymorphic : SType → SType → Option SType
  | SType.anyT, t => some t
  | SType.arr t, SType.arr u => t.resolvePolymorphic u
  | _, _ => none

/-- Modelled from the spec: `Type.to_nonpolymorphic(concrete)` — the
placeholder specialized to the resolved concrete type. -/
def SType.toNonPolymorphic : SType → SType → SType
  | SType.anyT, r => r
  | SType.arr t, r => SType.arr (t.toNonPolymorphic r)
  | SType.base s, _ => SType.base s

/-- Modelled from the spec: `Type.name`, used only for the
`param.type.name == 'std::any'` comparison in default population. -/
def SType.typeName : SType → String
  | SType.base s => s
  | SType.anyT => "std::any"
  | SType.arr t => "array<" ++ t.typeName ++ ">"

/-- The element type of a VARIADIC parameter:
`param.type.get_subtypes()[0]`.  Variadic parameter types are always
arrays in the source (a non-array would raise `IndexError`). -/
def varElemType : SType → SType
  | SType.arr t => t
  | t => t

/-- The two schema-backed type oracles consumed by `_check_type`:
`issubclass` and `implicitly_castable_to` (both defined in `types.py`
and the cast catalog, outside `src/`); the resolver is parametric in
them. -/
structure TypeOps where
  subtypeOf : SType → SType → Bool
  implicitlyCastable : SType → SType → Bool

/-- Model of the intermediate-representation expressions the binder
manipulates: opaque compiled caller arguments and default expressions
(`expr`), `irast.BytesConstant` (carrying its byte values), and the
synthetic empty set `irutils.new_empty_set(scls, alias)`.  The external
`setgen.ensure_set` wrapper is scope bookkeeping with no effect on which
argument occupies which position, and is modelled as the identity. -/
inductive IRExpr where
  | expr (tag : Nat)
  | bytesConst (bytes : List Nat)
  | emptySet (scls : SType) (aliasName : String)
deriving DecidableEq

/-- A parameter's stored default: whether its compiled form is an empty
expression (`irutils.is_empty(param.get_ir_default(...))`) and the
compiled default itself. -/
structure ParamDefault where
  isEmptyIr : Bool
  ir : IRExpr
deriving DecidableEq

/-- Model of a function parameter. -/
structure Param where
  name : String
  kind : ParamKind
  type : SType
  typemod : TypeModifier
  default : Option ParamDefault
deriving DecidableEq

/-- Model of `s_func.Function` as the binder consumes it:
`language is qlast.Language.EdgeQL` becomes `isEdgeQL`.  The
`initial_value` handling of the orchestrator is external compilation and
is outside the modelled claims. -/
structure SFunc where
  id : Nat
  params : List Param
  returnType : SType
  isEdgeQL : Bool
deriving DecidableEq

/-- Model of the `BoundCall` named tuple. -/
structure BoundCall where
  func : Option SFunc
  args : Option (List IRExpr)
  returnType : Option SType
  usedImplicitCasts : Bool
  hasEmptyVariadic : Bool
deriving DecidableEq

/-- Model of the `_NO_MATCH` sentinel. -/
def noMatch : BoundCall :=
  { func := none, args := none, returnType := none,
    usedImplicitCasts := false, hasEmptyVariadic := false }

/-- Errors raised during call compilation: `runtimeErr` models the
internal-invariant `RuntimeError`; the others model the distinct
`EdgeQLError` messages (`could not resolve std::any type for the $..
parameter`, `function .. is not unique`, `could not find a function
variant ..`). -/
inductive CallError where
  | runtimeErr (msg : String)
  | polyUnresolved (paramName : String)
  | notUnique
  | noVariant
deriving DecidableEq

/-- Modelled from the spec: `func.params.as_pg_params()` (defined in
`functions.py`, outside `src/`) lays the parameters out as all
NAMED_ONLY parameters first (in declaration order), then POSITIONAL,
then the trailing VARIADIC; `has_param_wo_default` flags a required
parameter — one with no default that is not VARIADIC (a variadic can
always match zero arguments). -/
structure PgParams where
  params : List Param
  hasParamWoDefault : Bool
deriving DecidableEq

def asPgParams (ps : List Param) : PgParams :=
  { params :=
      ps.filter (fun p => decide (p.kind = ParamKind.namedOnly)) ++
      ps.filter (fun p => decide (p.kind = ParamKind.positional)) ++
      ps.filter (fun p => decide (p.kind = ParamKind.variadic))
  , hasParamWoDefault :=
      ps.any (fun p => decide (p.kind ≠ ParamKind.variadic) &&
        decide (p.default = none)) }

/-- Model of `int.to_bytes(length, 'little')`. -/
def natToBytesLE (len : Nat) (n : Nat) : List Nat :=
  (List.range len).map (fun k => n / 2 ^ (8 * k) % 256)

/-- Model of the inner `_check_type(arg_type, param_type)` of
`try_bind_func_args`; the second component is the updated
`used_implicit_cast` flag. -/
def check_type (ops : TypeOps) (inPolyFunc : Bool) (used : Bool)
    (argT paramT : SType) : Bool × Bool :=
  if argT.isPolymorphic && inPolyFunc &&
      (argT.resolvePolymorphic paramT).isSome then (true, used)
  else if ops.subtypeOf argT paramT then (true, used)
  else if ops.implicitlyCastable argT paramT then (true, true)
  else (false, used)

/-- Model of the inner `_check_any(arg_type, param_type)` of
`try_bind_func_args`; the second component is the updated
`resolved_poly_base_type` cell.  One cell serves the whole attempt: a
placeholder may resolve to at most one concrete type per call. -/
def check_any (inPolyFunc : Bool) (resolved : Option SType)
    (argT paramT : SType) : Bool × Option SType :=
  if inPolyFunc && argT.isPolymorphic && decide (paramT = argT) then
    (true, resolved)
  else if ¬ paramT.isPolymorphic then (true, resolved)
  else
    match paramT.resolvePolymorphic argT with
    | none => (false, resolved)
    | some r =>
      match resolved with
      | none => (true, some r)
      | some prev => (decide (prev = r), resolved)

/-- The state threaded through the binding phases: `bound_param_args`,
`populate_defaults`, and the two nonlocal cells of the check closures. -/
structure BindAcc where
  bound : List (Param × Option IRExpr)
  populateDefaults : Bool
  usedImplicitCast : Bool
  resolvedPoly : Option SType
deriving DecidableEq

/-- Step 1 of `try_bind_func_args`: bind the leading run of NAMED_ONLY
parameters against the named arguments; `none` is `_NO_MATCH`.  Returns
the remaining parameters, the updated state, and `matched_kwargs`. -/
def bindNamedOnly (ops : TypeOps) (inPoly : Bool)
    (kwargs : List (String × SType × IRExpr)) :
    List Param → BindAcc → Nat → Option (List Param × BindAcc × Nat)
  | [], acc, mk => some ([], acc, mk)
  | p :: ps, acc, mk =>
    if p.kind ≠ ParamKind.namedOnly then some (p :: ps, acc, mk)
    else
      match kwargs.lookup p.name with
      | some (argT, argV) =>
        let ct := check_type ops inPoly acc.usedImplicitCast argT p.type
        if ct.1 = false then none
        else
          let ca := check_any inPoly acc.resolvedPoly argT p.type
          if ca.1 = false then none
          else
            bindNamedOnly ops inPoly kwargs ps
              { bound := acc.bound ++ [(p, some argV)],
                populateDefaults := acc.populateDefaults,
                usedImplicitCast := ct.2, resolvedPoly := ca.2 } (mk + 1)
      | none =>
        match p.default with
        | none => none
        | some _ =>
          bindNamedOnly ops inPoly kwargs ps
            { acc with bound := acc.bound ++ [(p, none)],
                       populateDefaults := true } mk

/-- The VARIADIC sub-loop of step 2: check the current and all remaining
positional arguments against the variadic's element type. -/
def bindVariadicArgs (ops : TypeOps) (inPoly : Bool) (p : Param)
    (varT : SType) :
    List (SType × IRExpr) → BindAcc → Option BindAcc
  | [], acc => some acc
  | (argT, argV) :: rest, acc =>
    let ct := check_type ops inPoly acc.usedImplicitCast argT varT
    if ct.1 = false then none
    else
      let ca := check_any inPoly acc.resolvedPoly argT varT
      if ca.1 = false then none
      else
        bindVariadicArgs ops inPoly p varT rest
          { acc with bound := acc.bound ++ [(p, some argV)],
                     usedImplicitCast := ct.2, resolvedPoly := ca.2 }

/-- Step 2 of `try_bind_func_args`: consume positional arguments against
the remaining parameters in order.  `Except.ok none` is `_NO_MATCH`; the
`RuntimeError` on an unprocessed NAMED_ONLY parameter is a distinct
internal error.  After a VARIADIC parameter consumes the remaining
arguments the loop stops, returning the parameters after it. -/
def bindPositional (ops : TypeOps) (inPoly : Bool) :
    List (SType × IRExpr) → List Param → BindAcc →
    Except CallError (Option (List Param × BindAcc))
  | [], ps, acc => Except.ok (some (ps, acc))
  | (argT, argV) :: rest, ps, acc =>
    match ps with
    | [] => Except.ok none
    | p :: ps2 =>
      match p.kind with
      | ParamKind.namedOnly =>
        Except.error (CallError.runtimeErr "unprocessed NAMED ONLY parameter")
      | ParamKind.variadic =>
        match bindVariadicArgs ops inPoly p (varElemType p.type)
            ((argT, argV) :: rest) acc with
        | none => Except.ok none
        | some acc2 => Except.ok (some (ps2, acc2))
      | ParamKind.positional =>
        let ct := check_type ops inPoly acc.usedImplicitCast argT p.type
        if ct.1 = false then Except.ok none
        else
          let ca := check_any inPoly acc.resolvedPoly argT p.type
          if ca.1 = false then Except.ok none
          else
            bindPositional ops inPoly rest ps2
              { acc with bound := acc.bound ++ [(p, some argV)],
                         usedImplicitCast := ct.2, resolvedPoly := ca.2 }

/-- Step 3 of `try_bind_func_args` (the trailing-defaults phase): every
unconsumed POSITIONAL parameter must have a default (else `_NO_MATCH`,
modelled as `Except.ok none`) and is marked for default population; an
unconsumed VARIADIC parameter sets the has-empty-variadic flag and never
fails; an unconsumed NAMED_ONLY parameter is the impossible internal
`RuntimeError`. -/
def bindTrailing :
    List Param → List (Param × Option IRExpr) → Bool → Bool →
    Except CallError (Option (List (Param × Option IRExpr) × Bool × Bool))
  | [], bound, popd, ev => Except.ok (some (bound, popd, ev))
  | p :: ps, bound, popd, ev =>
    match p.kind with
    | ParamKind.positional =>
      match p.default with
      | none => Except.ok none
      | some _ => bindTrailing ps (bound ++ [(p, none)]) true ev
    | ParamKind.variadic => bindTrailing ps bound popd true
    | ParamKind.namedOnly =>
      Except.error (CallError.runtimeErr "unprocessed NAMED ONLY parameter")

/-- The default-population loop of `try_bind_func_args` (lines 336-384):
for every bound entry still lacking a value, set bit `i` of the defaults
mask and synthesize the default expression (an empty set for EdgeQL
functions, the stored compiled default otherwise); an empty default for
a `std::any` parameter with no established polymorphic resolution raises
the `EdgeQLError`.  The source guards the loop with `populate_defaults`;
the loop is the identity (mask 0) when no entry is marked, so running it
unconditionally coincides with the guarded loop.  The `null_args` set it
also builds feeds only the external scope bookkeeping. -/
def populateDefaultsFold (isEdgeQL : Bool) (resolvedPoly : Option SType) :
    List (Param × Option IRExpr) → Nat →
    Except CallError (List (Param × IRExpr) × Nat)
  | [], _ => Except.ok ([], 0)
  | (p, some v) :: rest, i =>
    match populateDefaultsFold isEdgeQL resolvedPoly rest (i + 1) with
    | Except.error e => Except.error e
    | Except.ok (l, m) => Except.ok ((p, v) :: l, m)
  | (p, none) :: rest, i =>
    let emptyDefault := isEdgeQL ||
      (match p.default with
       | some d => d.isEmptyIr
       | none => true)
    let defaultType? : Option SType :=
      if emptyDefault then
        if p.type.typeName = "std::any" then resolvedPoly
        else some p.type
      else some p.type
    match defaultType? with
    | none => Except.error (CallError.polyUnresolved p.name)
    | some dt =>
      let dflt : IRExpr :=
        if isEdgeQL then IRExpr.emptySet dt p.name
        else
          match p.default with
          | some d => d.ir
          | none => IRExpr.emptySet dt p.name
      match populateDefaultsFold isEdgeQL resolvedPoly rest (i + 1) with
      | Except.error e => Except.error e
      | Except.ok (l, m) => Except.ok ((p, dflt) :: l, m ||| 2 ^ i)

/-- Model of `try_bind_func_args(args, kwargs, funcname, func)`.  The
zero-parameter fast path matches only a call with no arguments and, for
an EdgeQL function, binds the single synthetic one-byte zero bytes
constant (the source writes it as the escape `r"\x00"`); then the three
binding phases, default population, the little-endian defaults bitmask
of `nparams // 8 + 1` bytes prepended for EdgeQL functions, and the
polymorphic return-type resolution.  The per-argument scope bookkeeping
(lines 396-406) mutates external scope trees only and does not change
the argument list. -/
def tryBindFuncArgs (ops : TypeOps) (inPoly : Bool)
    (args : List (SType × IRExpr))
    (kwargs : List (String × SType × IRExpr)) (func : SFunc) :
    Except CallError BoundCall :=
  let noArgsCall : Bool := args.isEmpty && kwargs.isEmpty
  if func.params.isEmpty then
    if noArgsCall then
      if func.isEdgeQL then
        Except.ok { func := some func,
                    args := some [IRExpr.bytesConst [0]],
                    returnType := some func.returnType,
                    usedImplicitCasts := false, hasEmptyVariadic := false }
      else
        Except.ok { func := some func, args := some [],
                    returnType := some func.returnType,
                    usedImplicitCasts := false, hasEmptyVariadic := false }
    else Except.ok noMatch
  else
    let pg := asPgParams func.params
    if noArgsCall && pg.hasParamWoDefault then Except.ok noMatch
    else
      match bindNamedOnly ops inPoly kwargs pg.params
          { bound := [], populateDefaults := false,
            usedImplicitCast := false, resolvedPoly := none } 0 with
      | none => Except.ok noMatch
      | some (rest, acc, matchedKw) =>
        if matchedKw ≠ kwargs.length then Except.ok noMatch
        else
          match bindPositional ops inPoly args rest acc with
          | Except.error e => Except.error e
          | Except.ok none => Except.ok noMatch
          | Except.ok (some (rest2, acc2)) =>
            match bindTrailing rest2 acc2.bound acc2.populateDefaults
                false with
            | Except.error e => Except.error e
            | Except.ok none => Except.ok noMatch
            | Except.ok (some (bound3, _popd3, hasEmptyVar)) =>
              match populateDefaultsFold func.isEdgeQL acc2.resolvedPoly
                  bound3 0 with
              | Except.error e => Except.error e
              | Except.ok (boundFinal, mask) =>
                let nparams := pg.params.length
                let boundArgs :=
                  (if func.isEdgeQL then
                    [IRExpr.bytesConst (natToBytesLE (nparams / 8 + 1) mask)]
                  else []) ++ boundFinal.map Prod.snd
                if func.returnType.isPolymorphic then
                  match acc2.resolvedPoly with
                  | none => Except.ok noMatch
                  | some r =>
                    Except.ok { func := some func,
                                args := some boundArgs,
                                returnType :=
                                  some (func.returnType.toNonPolymorphic r),
                                usedImplicitCasts := acc2.usedImplicitCast,
                                hasEmptyVariadic := hasEmptyVar }
                else
                  Except.ok { func := some func,
                              args := some boundArgs,
                              returnType := some func.returnType,
                              usedImplicitCasts := acc2.usedImplicitCast,
                              hasEmptyVariadic := hasEmptyVar }

/-- The candidate-selection loop of `compile_FunctionCall` (lines
91-112): run the binder against each candidate; a new match replaces the
current best only when the best used implicit casts and the new match
did not; a second match for a call with no arguments at all raises the
not-unique (`AmbiguousCall`) error. -/
def selectFuncVariants (ops : TypeOps) (inPoly : Bool)
    (args : List (SType × IRExpr))
    (kwargs : List (String × SType × IRExpr)) :
    List SFunc → BoundCall → Except CallError BoundCall
  | [], best => Except.ok best
  | f :: fs, best =>
    match tryBindFuncArgs ops inPoly args kwargs f with
    | Except.error e => Except.error e
    | Except.ok call =>
      if call.args = none then
        selectFuncVariants ops inPoly args kwargs fs best
      else if best.args = none then
        selectFuncVariants ops inPoly args kwargs fs call
      else
        let best2 :=
          if best.usedImplicitCasts && ! call.usedImplicitCasts then call
          else best
        if args.isEmpty && kwargs.isEmpty then
          Except.error CallError.notUnique
        else selectFuncVariants ops inPoly args kwargs fs best2

/-- The selection core of `compile_FunctionCall`: the candidate loop
starting from `_NO_MATCH`, followed by the final no-variant check
(lines 114-117).  Name resolution, argument compilation and the
final node construction are external collaborators. -/
def resolveFunctionCall (ops : TypeOps) (inPoly : Bool)
    (args : List (SType × IRExpr))
    (kwargs : List (String × SType × IRExpr)) (funcs : List SFunc) :
    Except CallError BoundCall :=
  match selectFuncVariants ops inPoly args kwargs funcs noMatch with
  | Except.error e => Except.error e
  | Except.ok best =>
    if best.func = none then Except.error CallError.noVariant
    else Except.ok best

deriving instance DecidableEq for Except

/-- Concrete type oracles for the resolver witnesses: subtyping is
reflexive with `std::any` on top, and no implicit casts exist. -/
def opsAny : TypeOps :=
  { subtypeOf := fun a b => a == b || b == SType.anyT,
    implicitlyCastable := fun _ _ => false }

/-- A zero-parameter EdgeQL function. -/
def fZeroE : SFunc :=
  { id := 1, params := [], returnType := SType.base "std::int64",
    isEdgeQL := true }

/-- The positional parameter `x: std::int64` of the spec's example. -/
def paramX : Param :=
  { name := "x", kind := ParamKind.positional,
    type := SType.base "std::int64", typemod := TypeModifier.singleton,
    default := none }

/-- The named-only parameter `y: std::str = "a"` of the spec's
example. -/
def paramY : Param :=
  { name := "y", kind := ParamKind.namedOnly, type := SType.base "std::str",
    typemod := TypeModifier.singleton,
    default := some { isEmptyIr := false, ir := IRExpr.expr 1 } }

/-- The spec's example function `f(x: int64, NAMED ONLY y: str = "a")
-> str`, implemented in EdgeQL. -/
def fXY : SFunc :=
  { id := 2, params := [paramX, paramY],
    returnType := SType.base "std::str", isEdgeQL := true }

/-- A native function with two `std::any` parameters and polymorphic
return type. -/
def fPoly2 : SFunc :=
  { id := 3,
    params :=
      [{ name := "p1", kind := ParamKind.positional, type := SType.anyT,
         typemod := TypeModifier.singleton, default := none },
       { name := "p2", kind := ParamKind.positional, type := SType.anyT,
         typemod := TypeModifier.singleton, default := none }],
    returnType := SType.anyT, isEdgeQL := false }

/-- A native function with a single variadic parameter. -/
def fVar : SFunc :=
  { id := 4,
    params :=
      [{ name := "xs", kind := ParamKind.variadic,
         type := SType.arr (SType.base "int"),
         typemod := TypeModifier.singleton, default := none }],
    returnType := SType.base "int", isEdgeQL := false }

/-- C3: a zero-parameter candidate returns a match exactly when the call
supplies zero positional and zero named arguments; in the matching case
an EdgeQL function gets the single synthetic zero-valued one-byte
byte-string constant as its whole argument list and a native function
gets the empty argument list. -/
theorem zeroParam_binding (ops : TypeOps) (inPoly : Bool)
    (args : List (SType × IRExpr))
    (kwargs : List (String × SType × IRExpr)) (func : SFunc)
    (hp : func.params = []) :
    ((∃ c, tryBindFuncArgs ops inPoly args kwargs func = Except.ok c ∧
        c.args ≠ none) ↔ (args = [] ∧ kwargs = [])) ∧
    (args = [] → kwargs = [] →
      tryBindFuncArgs ops inPoly args kwargs func =
        Except.ok { func := some func,
                    args := some (if func.isEdgeQL then
                        [IRExpr.bytesConst [0]]
                      else []),
                    returnType := some func.returnType,
                    usedImplicitCasts := false,
                    hasEmptyVariadic := false }) := by
  have hmain : tryBindFuncArgs ops inPoly args kwargs func =
      (if args = [] ∧ kwargs = [] then
        Except.ok { func := some func,
                    args := some (if func.isEdgeQL then
                        [IRExpr.bytesConst [0]]
                      else []),
                    returnType := some func.returnType,
                    usedImplicitCasts := false,
                    hasEmptyVariadic := false }
      else Except.ok noMatch) := by
    cases args with
    | cons ah at2 => simp [tryBindFuncArgs, hp]
    | nil =>
      cases kwargs with
      | cons kh kt => simp [tryBindFuncArgs, hp]
      | nil =>
        cases he : func.isEdgeQL <;> simp [tryBindFuncArgs, hp, he]
  constructor
  · rw [hmain]
    by_cases hc : args = [] ∧ kwargs = []
    · rw [if_pos hc]
      constructor
      · intro _
        exact hc
      · intro _
        exact ⟨_, rfl, by simp⟩
    · rw [if_neg hc]
      constructor
      · rintro ⟨c, hcc, hargs⟩
        rw [Except.ok.injEq] at hcc
        refine absurd ?_ hargs
        rw [← hcc]
        rfl
      · intro hcon
        exact absurd hcon hc
  · intro ha hk
    rw [hmain, if_pos ⟨ha, hk⟩]

/-- Witness for `zeroParam_binding`: the zero-parameter EdgeQL function
called with no arguments binds the single zero-byte constant, and called
with one argument does not match. -/
theorem zeroParam_binding_witness :
    tryBindFuncArgs opsAny false [] [] fZeroE =
      Except.ok { func := some fZeroE,
                  args := some (if fZeroE.isEdgeQL then
                      [IRExpr.bytesConst [0]]
                    else []),
                  returnType := some fZeroE.returnType,
                  usedImplicitCasts := false,
                  hasEmptyVariadic := false } ∧
    ¬ ((∃ c, tryBindFuncArgs opsAny false
          [(SType.base "q", IRExpr.expr 9)] [] fZeroE = Except.ok c ∧
        c.args ≠ none)) :=
  ⟨(zeroParam_binding opsAny false [] [] fZeroE rfl).2 rfl rfl,
   fun h =>
     by cases ((zeroParam_binding opsAny false
         [(SType.base "q", IRExpr.expr 9)] [] fZeroE rfl).1.mp h).1⟩

/-- A defaulted positional parameter used by the C7 witness. -/
def paramY2 : Param :=
  { name := "z", kind := ParamKind.positional,
    type := SType.base "std::str", typemod := TypeModifier.singleton,
    default := some { isEmptyIr := false, ir := IRExpr.expr 1 } }

/-- A variadic parameter used by the C7 witness. -/
def paramV2 : Param :=
  { name := "ys", kind := ParamKind.variadic,
    type := SType.arr (SType.base "int"),
    typemod := TypeModifier.singleton, default := none }

/-- C7: in the trailing-defaults phase, an unconsumed POSITIONAL
parameter without a default is an immediate no-match; one with a default
is appended valueless to `bound_param_args` with the populate flag set;
an unconsumed VARIADIC parameter never fails and only sets the
has-empty-variadic flag — which reaches the resulting BoundCall, as
witnessed by the zero-argument call to a single-variadic function. -/
theorem trailing_defaults_phase :
    (∀ (p : Param) (ps : List Param)
        (bound : List (Param × Option IRExpr)) (popd ev : Bool),
      p.kind = ParamKind.positional → p.default = none →
      bindTrailing (p :: ps) bound popd ev = Except.ok none) ∧
    (∀ (p : Param) (d : ParamDefault) (ps : List Param)
        (bound : List (Param × Option IRExpr)) (popd ev : Bool),
      p.kind = ParamKind.positional → p.default = some d →
      bindTrailing (p :: ps) bound popd ev =
        bindTrailing ps (bound ++ [(p, none)]) true ev) ∧
    (∀ (p : Param) (ps : List Param)
        (bound : List (Param × Option IRExpr)) (popd ev : Bool),
      p.kind = ParamKind.variadic →
      bindTrailing (p :: ps) bound popd ev =
        bindTrailing ps bound popd true) ∧
    (tryBindFuncArgs opsAny false [] [] fVar =
      Except.ok { func := some fVar, args := some [],
                  returnType := some (SType.base "int"),
                  usedImplicitCasts := false, hasEmptyVariadic := true }) := by
  refine ⟨?_, ?_, ?_, by decide⟩
  · intro p ps bound popd ev hk hd
    simp only [bindTrailing, hk, hd]
  · intro p d ps bound popd ev hk hd
    simp only [bindTrailing, hk, hd]
  · intro p ps bound popd ev hk
    simp only [bindTrailing, hk]

/-- Witness for `trailing_defaults_phase` at concrete parameters: a
defaultless positional rejects, a defaulted positional marks, a variadic
sets its flag. -/
theorem trailing_defaults_phase_witness :
    bindTrailing [paramX] [] false false = Except.ok none ∧
    bindTrailing [paramY2] [] false false =
      bindTrailing [] [(paramY2, none)] true false ∧
    bindTrailing [paramV2] [] false false =
      bindTrailing [] [] false true :=
  ⟨trailing_defaults_phase.1 paramX [] [] false false rfl rfl,
   by
     have h := trailing_defaults_phase.2.1 paramY2
       { isEmptyIr := false, ir := IRExpr.expr 1 } [] [] false false rfl rfl
     simpa using h,
   trailing_defaults_phase.2.2.1 paramV2 [] [] false false rfl⟩

/-- Oracles where `int32` implicitly casts to `std::str`, for the C4
witness. -/
def opsCastInt : TypeOps :=
  { subtypeOf := fun a b => a == b,
    implicitlyCastable := fun a b =>
      a == SType.base "int32" && b == SType.base "std::str" }

/-- Native candidate taking one `std::str` positional (reachable from
`int32` only through the implicit cast). -/
def fTakesStr : SFunc :=
  { id := 10,
    params := [{ name := "a", kind := ParamKind.positional,
                 type := SType.base "std::str",
                 typemod := TypeModifier.singleton, default := none }],
    returnType := SType.base "std::str", isEdgeQL := false }

/-- Native candidate taking one `int32` positional (exact match). -/
def fTakesInt : SFunc :=
  { id := 11,
    params := [{ name := "a", kind := ParamKind.positional,
                 type := SType.base "int32",
                 typemod := TypeModifier.singleton, default := none }],
    returnType := SType.base "int32", isEdgeQL := false }

/-- C4: when a best match already exists, a newly matched candidate
replaces it exactly when the current best used at least one implicit
cast and the new match used none (the `if` below), otherwise the
earlier-matched candidate is kept; consequently, for the same
argument-bearing call — one that supplies at least one positional or
named argument — a binding without implicit casts defeats one that
required an implicit cast whichever candidate comes first. -/
theorem selection_prefers_no_casts :
    (∀ (ops : TypeOps) (inPoly : Bool) (args : List (SType × IRExpr))
        (kwargs : List (String × SType × IRExpr)) (f : SFunc)
        (fs : List SFunc) (best call : BoundCall),
      tryBindFuncArgs ops inPoly args kwargs f = Except.ok call →
      call.args ≠ none → best.args ≠ none →
      ¬ (args = [] ∧ kwargs = []) →
      selectFuncVariants ops inPoly args kwargs (f :: fs) best =
        selectFuncVariants ops inPoly args kwargs fs
          (if best.usedImplicitCasts && ! call.usedImplicitCasts then call
           else best)) ∧
    (∀ (ops : TypeOps) (inPoly : Bool) (args : List (SType × IRExpr))
        (kwargs : List (String × SType × IRExpr)) (f1 f2 : SFunc)
        (c1 c2 : BoundCall),
      tryBindFuncArgs ops inPoly args kwargs f1 = Except.ok c1 →
      tryBindFuncArgs ops inPoly args kwargs f2 = Except.ok c2 →
      c1.args ≠ none → c2.args ≠ none → c2.func ≠ none →
      ¬ (args = [] ∧ kwargs = []) →
      c1.usedImplicitCasts = true → c2.usedImplicitCasts = false →
      resolveFunctionCall ops inPoly args kwargs [f1, f2] =
        Except.ok c2 ∧
      resolveFunctionCall ops inPoly args kwargs [f2, f1] =
        Except.ok c2) := by
  have hstep : ∀ (ops : TypeOps) (inPoly : Bool)
      (args : List (SType × IRExpr))
      (kwargs : List (String × SType × IRExpr)) (f : SFunc)
      (fs : List SFunc) (best call : BoundCall),
      tryBindFuncArgs ops inPoly args kwargs f = Except.ok call →
      call.args ≠ none → best.args ≠ none →
      ¬ (args = [] ∧ kwargs = []) →
      selectFuncVariants ops inPoly args kwargs (f :: fs) best =
        selectFuncVariants ops inPoly args kwargs fs
          (if best.usedImplicitCasts && ! call.usedImplicitCasts then call
           else best) := by
    intro ops inPoly args kwargs f fs best call hbind hcall hbest hargs
    have hguard : (args.isEmpty && kwargs.isEmpty) = false := by
      cases args with
      | nil =>
        cases kwargs with
        | nil => exact absurd ⟨rfl, rfl⟩ hargs
        | cons kh kt => simp
      | cons ah at2 => simp
    simp only [selectFuncVariants, hbind, if_neg hcall, if_neg hbest,
      hguard, Bool.false_eq_true, if_false]
  have hfirstmatch : ∀ (ops : TypeOps) (inPoly : Bool)
      (args : List (SType × IRExpr))
      (kwargs : List (String × SType × IRExpr)) (f : SFunc)
      (fs : List SFunc) (call : BoundCall),
      tryBindFuncArgs ops inPoly args kwargs f = Except.ok call →
      call.args ≠ none →
      selectFuncVariants ops inPoly args kwargs (f :: fs) noMatch =
        selectFuncVariants ops inPoly args kwargs fs call := by
    intro ops inPoly args kwargs f fs call hbind hcall
    have hnm : (noMatch : BoundCall).args = none := rfl
    simp only [selectFuncVariants, hbind, if_neg hcall, hnm,
      eq_self_iff_true, if_true]
  refine ⟨hstep, ?_⟩
  intro ops inPoly args kwargs f1 f2 c1 c2 h1 h2 hc1 hc2 hf2 hargs hu1 hu2
  constructor
  · rw [resolveFunctionCall, hfirstmatch ops inPoly args kwargs f1 [f2] c1
      h1 hc1]
    rw [hstep ops inPoly args kwargs f2 [] c1 c2 h2 hc2 hc1 hargs]
    rw [hu1, hu2]
    simp only [Bool.not_false, Bool.and_self, if_true, selectFuncVariants,
      if_neg hf2]
  · rw [resolveFunctionCall, hfirstmatch ops inPoly args kwargs f2 [f1] c2
      h2 hc2]
    rw [hstep ops inPoly args kwargs f1 [] c2 c1 h1 hc1 hc2 hargs]
    rw [hu2]
    simp only [Bool.false_and, Bool.false_eq_true, if_false,
      selectFuncVariants, if_neg hf2]

/-- Witness for `selection_prefers_no_casts`: with one candidate binding
through an implicit cast and one binding exactly, the exact binding wins
in both candidate orders. -/
theorem selection_prefers_no_casts_witness :
    resolveFunctionCall opsCastInt false
        [(SType.base "int32", IRExpr.expr 7)] [] [fTakesStr, fTakesInt] =
      Except.ok { func := some fTakesInt, args := some [IRExpr.expr 7],
                  returnType := some (SType.base "int32"),
                  usedImplicitCasts := false, hasEmptyVariadic := false } ∧
    resolveFunctionCall opsCastInt false
        [(SType.base "int32", IRExpr.expr 7)] [] [fTakesInt, fTakesStr] =
      Except.ok { func := some fTakesInt, args := some [IRExpr.expr 7],
                  returnType := some (SType.base "int32"),
                  usedImplicitCasts := false, hasEmptyVariadic := false } := by
  have h := selection_prefers_no_casts.2 opsCastInt false
    [(SType.base "int32", IRExpr.expr 7)] [] fTakesStr fTakesInt
    { func := some fTakesStr, args := some [IRExpr.expr 7],
      returnType := some (SType.base "std::str"),
      usedImplicitCasts := true, hasEmptyVariadic := false }
    { func := some fTakesInt, args := some [IRExpr.expr 7],
      returnType := some (SType.base "int32"),
      usedImplicitCasts := false, hasEmptyVariadic := false }
    (by decide) (by decide) (by decide) (by decide) (by decide)
    (by decide) rfl rfl
  exact ⟨h.2, h.1⟩

/-- A successful binder result that carries arguments also carries the
bound function: every success exit of `try_bind_func_args` returns
either the full `_NO_MATCH` sentinel or a fully populated BoundCall. -/
theorem tryBind_ok_func (ops : TypeOps) (inPoly : Bool)
    (args : List (SType × IRExpr))
    (kwargs : List (String × SType × IRExpr)) (func : SFunc)
    (c : BoundCall)
    (h : tryBindFuncArgs ops inPoly args kwargs func = Except.ok c)
    (hc : c.args ≠ none) : c.func = some func := by
  unfold tryBindFuncArgs at h
  by_cases h1 : func.params.isEmpty = true
  · simp only [h1, if_true] at h
    by_cases h2 : (args.isEmpty && kwargs.isEmpty) = true
    · simp only [h2, if_true] at h
      by_cases h3 : func.isEdgeQL = true
      · simp only [h3, if_true] at h
        cases h
        rfl
      · simp only [Bool.not_eq_true] at h3
        simp only [h3, Bool.false_eq_true, if_false] at h
        cases h
        rfl
    · simp only [Bool.not_eq_true] at h2
      simp only [h2, Bool.false_eq_true, if_false] at h
      cases h
      exact absurd rfl hc
  · simp only [Bool.not_eq_true] at h1
    simp only [h1, Bool.false_eq_true, if_false] at h
    by_cases h4 : (args.isEmpty && kwargs.isEmpty &&
        (asPgParams func.params).hasParamWoDefault) = true
    · simp only [h4, if_true] at h
      cases h
      exact absurd rfl hc
    · simp only [Bool.not_eq_true] at h4
      simp only [h4, Bool.false_eq_true, if_false] at h
      cases h5 : bindNamedOnly ops inPoly kwargs
          (asPgParams func.params).params
          { bound := [], populateDefaults := false,
            usedImplicitCast := false, resolvedPoly := none } 0 with
      | none =>
        simp only [h5] at h
        cases h
        exact absurd rfl hc
      | some trip =>
        obtain ⟨rest, acc, mk⟩ := trip
        simp only [h5] at h
        by_cases h6 : mk ≠ kwargs.length
        · simp only [if_pos h6] at h
          cases h
          exact absurd rfl hc
        · simp only [if_neg h6] at h
          cases h7 : bindPositional ops inPoly args rest acc with
          | error e =>
            simp only [h7] at h
            cases h
          | ok opt =>
            cases opt with
            | none =>
              simp only [h7] at h
              cases h
              exact absurd rfl hc
            | some pr =>
              obtain ⟨rest2, acc2⟩ := pr
              simp only [h7] at h
              cases h8 : bindTrailing rest2 acc2.bound
                  acc2.populateDefaults false with
              | error e =>
                simp only [h8] at h
                cases h
              | ok opt2 =>
                cases opt2 with
                | none =>
                  simp only [h8] at h
                  cases h
                  exact absurd rfl hc
                | some tr =>
                  obtain ⟨bound3, popd3, hev⟩ := tr
                  simp only [h8] at h
                  cases h9 : populateDefaultsFold func.isEdgeQL
                      acc2.resolvedPoly bound3 0 with
                  | error e =>
                    simp only [h9] at h
                    cases h
                  | ok prm =>
                    obtain ⟨bf, mask⟩ := prm
                    simp only [h9] at h
                    by_cases h10 : func.returnType.isPolymorphic = true
                    · simp only [h10, if_true] at h
                      cases h11 : acc2.resolvedPoly with
                      | none =>
                        simp only [h11] at h
                        cases h
                        exact absurd rfl hc
                      | some r =>
                        simp only [h11] at h
                        cases h
                        rfl
                    · simp only [Bool.not_eq_true] at h10
                      simp only [h10, Bool.false_eq_true, if_false] at h
                      cases h
                      rfl

/-- Candidate scan of a no-argument call once a best match is held: any
further match raises the not-unique error, no further match returns the
held best. -/
theorem select_noargs_more (ops : TypeOps) (inPoly : Bool)
    (calls : SFunc → BoundCall) :
    ∀ (fs : List SFunc) (best : BoundCall),
      (∀ f ∈ fs,
        tryBindFuncArgs ops inPoly [] [] f = Except.ok (calls f)) →
      best.args ≠ none →
      (fs.filter (fun f => (calls f).args.isSome) = [] →
        selectFuncVariants ops inPoly [] [] fs best = Except.ok best) ∧
      (fs.filter (fun f => (calls f).args.isSome) ≠ [] →
        selectFuncVariants ops inPoly [] [] fs best =
          Except.error CallError.notUnique) := by
  intro fs
  induction fs with
  | nil =>
    intro best hbind hbest
    exact ⟨fun _ => rfl, fun hne => absurd rfl hne⟩
  | cons f t ih =>
    intro best hbind hbest
    have hf := hbind f (List.mem_cons_self f t)
    have hbt : ∀ g ∈ t,
        tryBindFuncArgs ops inPoly [] [] g = Except.ok (calls g) :=
      fun g hg => hbind g (List.mem_cons_of_mem f hg)
    cases hfa : (calls f).args with
    | none =>
      have hstep : selectFuncVariants ops inPoly [] [] (f :: t) best =
          selectFuncVariants ops inPoly [] [] t best := by
        simp only [selectFuncVariants, hf, hfa, eq_self_iff_true, if_true]
      have hfilter : (f :: t).filter (fun g => (calls g).args.isSome) =
          t.filter (fun g => (calls g).args.isSome) := by
        simp [List.filter_cons, hfa]
      rw [hstep, hfilter]
      exact ih best hbt hbest
    | some ca =>
      have h1 : ¬ ((calls f).args = none) := by simp [hfa]
      have hstep : selectFuncVariants ops inPoly [] [] (f :: t) best =
          Except.error CallError.notUnique := by
        simp only [selectFuncVariants, hf, if_neg h1, if_neg hbest,
          List.isEmpty_nil, Bool.and_self, if_true]
      rw [hstep]
      constructor
      · intro habs
        rw [List.filter_cons] at habs
        simp [hfa] at habs
      · intro _
        rfl

/-- Candidate scan of a no-argument call starting from `_NO_MATCH`:
no match keeps the sentinel, a unique match is returned, two or more
matches raise the not-unique error. -/
theorem select_noargs_start (ops : TypeOps) (inPoly : Bool)
    (calls : SFunc → BoundCall) :
    ∀ fs : List SFunc,
      (∀ f ∈ fs,
        tryBindFuncArgs ops inPoly [] [] f = Except.ok (calls f)) →
      (fs.filter (fun f => (calls f).args.isSome) = [] →
        selectFuncVariants ops inPoly [] [] fs noMatch =
          Except.ok noMatch) ∧
      (∀ f0, fs.filter (fun f => (calls f).args.isSome) = [f0] →
        selectFuncVariants ops inPoly [] [] fs noMatch =
          Except.ok (calls f0)) ∧
      (2 ≤ (fs.filter (fun f => (calls f).args.isSome)).length →
        selectFuncVariants ops inPoly [] [] fs noMatch =
          Except.error CallError.notUnique) := by
  intro fs
  induction fs with
  | nil =>
    intro hbind
    refine ⟨fun _ => rfl, ?_, ?_⟩
    · intro f0 h0
      exact absurd h0 (by simp)
    · intro h2
      simp at h2
  | cons f t ih =>
    intro hbind
    have hf := hbind f (List.mem_cons_self f t)
    have hbt : ∀ g ∈ t,
        tryBindFuncArgs ops inPoly [] [] g = Except.ok (calls g) :=
      fun g hg => hbind g (List.mem_cons_of_mem f hg)
    cases hfa : (calls f).args with
    | none =>
      have hstep : selectFuncVariants ops inPoly [] [] (f :: t) noMatch =
          selectFuncVariants ops inPoly [] [] t noMatch := by
        simp only [selectFuncVariants, hf, hfa, eq_self_iff_true, if_true]
      have hfilter : (f :: t).filter (fun g => (calls g).args.isSome) =
          t.filter (fun g => (calls g).args.isSome) := by
        simp [List.filter_cons, hfa]
      rw [hstep, hfilter]
      exact ih hbt
    | some ca =>
      have h1 : ¬ ((calls f).args = none) := by simp [hfa]
      have hnm : (noMatch : BoundCall).args = none := rfl
      have hstep : selectFuncVariants ops inPoly [] [] (f :: t) noMatch =
          selectFuncVariants ops inPoly [] [] t (calls f) := by
        simp only [selectFuncVariants, hf, if_neg h1, hnm,
          eq_self_iff_true, if_true]
      have hfilter : (f :: t).filter (fun g => (calls g).args.isSome) =
          f :: t.filter (fun g => (calls g).args.isSome) := by
        simp [List.filter_cons, hfa]
      rw [hstep, hfilter]
      have hm := select_noargs_more ops inPoly calls t (calls f) hbt h1
      refine ⟨?_, ?_, ?_⟩
      · intro habs
        exact absurd habs (List.cons_ne_nil f _)
      · intro f0 h0
        injection h0 with h0a h0b
        subst h0a
        exact hm.1 h0b
      · intro h2
        refine hm.2 ?_
        intro hempty
        rw [hempty] at h2
        simp at h2

/-- C5: for a call supplying zero positional and zero named arguments,
two or more matching candidates make the orchestrator fail with the
not-unique (AmbiguousCall) error, while exactly one matching candidate
succeeds with that candidate's bound call. -/
theorem zero_arg_ambiguity (ops : TypeOps) (inPoly : Bool)
    (funcs : List SFunc) (calls : SFunc → BoundCall)
    (hbind : ∀ f ∈ funcs,
      tryBindFuncArgs ops inPoly [] [] f = Except.ok (calls f)) :
    (2 ≤ (funcs.filter (fun f => (calls f).args.isSome)).length →
      resolveFunctionCall ops inPoly [] [] funcs =
        Except.error CallError.notUnique) ∧
    (∀ f0, funcs.filter (fun f => (calls f).args.isSome) = [f0] →
      resolveFunctionCall ops inPoly [] [] funcs =
        Except.ok (calls f0)) := by
  have hs := select_noargs_start ops inPoly calls funcs hbind
  constructor
  · intro h2
    rw [resolveFunctionCall, hs.2.2 h2]
  · intro f0 h0
    have hmem0 : f0 ∈ funcs.filter (fun f => (calls f).args.isSome) := by
      rw [h0]
      exact List.mem_singleton_self f0
    have hmem : f0 ∈ funcs := List.mem_of_mem_filter hmem0
    have hfa : ((calls f0).args).isSome = true := of_decide_eq_true
      (by simpa using List.of_mem_filter hmem0)
    have hfne : (calls f0).args ≠ none := by
      intro hcon
      rw [hcon] at hfa
      cases hfa
    have hfunc : (calls f0).func = some f0 :=
      tryBind_ok_func ops inPoly [] [] f0 (calls f0) (hbind f0 hmem) hfne
    have hfne2 : ¬ ((calls f0).func = none) := by
      rw [hfunc]
      intro hcon
      cases hcon
    rw [resolveFunctionCall, hs.2.1 f0 h0]
    simp only [if_neg hfne2]

/-- A second zero-parameter candidate (native), overloading the same
name as `fZeroE` for the C5 witness. -/
def fZeroN2 : SFunc :=
  { id := 5, params := [], returnType := SType.base "std::str",
    isEdgeQL := false }

/-- The binder results of the C5 witness candidates. -/
def callsZero (f : SFunc) : BoundCall :=
  match tryBindFuncArgs opsAny false [] [] f with
  | Except.ok c => c
  | Except.error _ => noMatch

/-- Witness for `zero_arg_ambiguity`: two matching zero-parameter
overloads are ambiguous for the empty call; a single one succeeds. -/
theorem zero_arg_ambiguity_witness :
    resolveFunctionCall opsAny false [] [] [fZeroE, fZeroN2] =
      Except.error CallError.notUnique ∧
    resolveFunctionCall opsAny false [] [] [fZeroE] =
      Except.ok (callsZero fZeroE) :=
  ⟨(zero_arg_ambiguity opsAny false [fZeroE, fZeroN2] callsZero
      (by decide)).1 (by decide),
   (zero_arg_ambiguity opsAny false [fZeroE] callsZero
      (by decide)).2 fZeroE (by decide)⟩

/-- C6: a single polymorphic-resolution cell serves one binding
attempt: (a) once established, no later `_check_any` ever overwrites
it; (b) a later check against a polymorphic parameter — outside the
inside-poly-function identical-placeholder shortcut — succeeds exactly
when the parameter resolves against the argument to the
already-established concrete type, so a resolution to a different
concrete type fails the check; (c) concretely, the
two-`any`-parameter candidate rejects `(int, str)` as a non-match and
accepts `(int, int)`, resolving the placeholder, and with it the
polymorphic return type, to `int`. -/
theorem poly_single_resolution :
    (∀ (inPoly : Bool) (T argT paramT : SType),
      (check_any inPoly (some T) argT paramT).2 = some T) ∧
    (∀ (inPoly : Bool) (T argT paramT : SType),
      paramT.isPolymorphic = true →
      ¬ (inPoly = true ∧ argT.isPolymorphic = true ∧ paramT = argT) →
      ((check_any inPoly (some T) argT paramT).1 = true ↔
        paramT.resolvePolymorphic argT = some T)) ∧
    tryBindFuncArgs opsAny false
      [(SType.base "int", IRExpr.expr 1), (SType.base "str", IRExpr.expr 2)]
      [] fPoly2 = Except.ok noMatch ∧
    tryBindFuncArgs opsAny false
      [(SType.base "int", IRExpr.expr 1), (SType.base "int", IRExpr.expr 2)]
      [] fPoly2 =
      Except.ok { func := some fPoly2,
                  args := some [IRExpr.expr 1, IRExpr.expr 2],
                  returnType := some (SType.base "int"),
                  usedImplicitCasts := false, hasEmptyVariadic := false } := by
  refine ⟨?_, ?_, by decide, by decide⟩
  · intro inPoly T argT paramT
    unfold check_any
    by_cases h1 :
        (inPoly && argT.isPolymorphic && decide (paramT = argT)) = true
    · rw [if_pos h1]
    · rw [if_neg h1]
      by_cases h2 : paramT.isPolymorphic = true
      · rw [if_neg (not_not_intro h2)]
        cases h3 : paramT.resolvePolymorphic argT with
        | none => rfl
        | some r => rfl
      · rw [if_pos h2]
  · intro inPoly T argT paramT hpoly hshort
    unfold check_any
    have h1 :
        ¬ ((inPoly && argT.isPolymorphic && decide (paramT = argT)) = true) := by
      simp only [Bool.and_eq_true, decide_eq_true_eq]
      rintro ⟨⟨ha, hb⟩, hc⟩
      exact hshort ⟨ha, hb, hc⟩
    rw [if_neg h1, if_neg (not_not_intro hpoly)]
    cases h3 : paramT.resolvePolymorphic argT with
    | none => simp
    | some r => simp [eq_comm]

/-- Witness for `poly_single_resolution`: against an established
resolution to `int`, a check of `any` against `str` is exactly the
(failing) comparison `resolve = int`, a check against `int` succeeds,
and the cell is never overwritten. -/
theorem poly_single_resolution_witness :
    ((check_any false (some (SType.base "int")) (SType.base "str")
        SType.anyT).1 = true ↔
      SType.resolvePolymorphic SType.anyT (SType.base "str") =
        some (SType.base "int")) ∧
    (check_any false (some (SType.base "int")) (SType.base "int")
        SType.anyT).1 = true ∧
    (check_any true (some (SType.base "int")) (SType.base "str")
        SType.anyT).2 = some (SType.base "int") :=
  ⟨poly_single_resolution.2.1 false (SType.base "int") (SType.base "str")
      SType.anyT (by decide) (by simp),
   (poly_single_resolution.2.1 false (SType.base "int") (SType.base "int")
      SType.anyT (by decide) (by simp)).mpr (by decide),
   poly_single_resolution.1 true (SType.base "int") (SType.base "str")
      SType.anyT⟩

/-- C8 counterexample: for `f(x: int64, NAMED ONLY y: str = "a")` the
call `f(1)` binds the parameters in the `as_pg_params` binding layout
(`y` first, being NAMED_ONLY, then `x`), so the default-populated `y`
is bound parameter 0 and the mask byte is `1` — bit 0 set, not bit 1 as
the spec's example states. -/
theorem bitmask_counterexample :
    tryBindFuncArgs opsAny false [(SType.base "std::int64", IRExpr.expr 10)]
      [] fXY =
      Except.ok { func := some fXY,
                  args := some [IRExpr.bytesConst [1],
                    IRExpr.emptySet (SType.base "std::str") "y",
                    IRExpr.expr 10],
                  returnType := some (SType.base "std::str"),
                  usedImplicitCasts := false, hasEmptyVariadic := false } ∧
    Nat.testBit 1 1 = false ∧ Nat.testBit 1 0 = true :=
  ⟨by decide, by decide, by decide⟩

/-- Bits of the defaults mask built by the default-population loop: on
success, bit `j` of the returned mask is set exactly when entry
`j - i0` of the bound-parameter list (the parameters in binding-layout
order, starting at index `i0`) carried no caller-supplied value and was
therefore populated from its default. -/
theorem populateDefaults_mask_bits (isE : Bool) (rp : Option SType) :
    ∀ (bound : List (Param × Option IRExpr)) (i0 : Nat)
      (l : List (Param × IRExpr)) (m : Nat),
      populateDefaultsFold isE rp bound i0 = Except.ok (l, m) →
      ∀ j : Nat, m.testBit j = true ↔
        ∃ k p, bound.get? k = some (p, none) ∧ j = i0 + k := by
  intro bound
  induction bound with
  | nil =>
    intro i0 l m h j
    simp only [populateDefaultsFold, Except.ok.injEq, Prod.mk.injEq] at h
    obtain ⟨-, hm⟩ := h
    subst hm
    simp
  | cons hd rest ih =>
    obtain ⟨p, v⟩ := hd
    intro i0 l m h j
    cases v with
    | some vv =>
      cases hr : populateDefaultsFold isE rp rest (i0 + 1) with
      | error e => simp [populateDefaultsFold, hr] at h
      | ok pr =>
        obtain ⟨l2, m2⟩ := pr
        simp only [populateDefaultsFold, hr, Except.ok.injEq,
          Prod.mk.injEq] at h
        obtain ⟨-, hm⟩ := h
        subst hm
        rw [ih (i0 + 1) l2 m2 hr j]
        constructor
        · rintro ⟨k, q, hk, hj2⟩
          exact ⟨k + 1, q, by simpa using hk, by omega⟩
        · rintro ⟨k, q, hk, hj2⟩
          cases k with
          | zero => simp at hk
          | succ k2 =>
            exact ⟨k2, q, by simpa using hk, by omega⟩
    | none =>
      cases hr : populateDefaultsFold isE rp rest (i0 + 1) with
      | error e =>
        simp only [populateDefaultsFold, hr] at h
        repeat' split at h
        all_goals cases h
      | ok pr =>
        obtain ⟨l2, m2⟩ := pr
        simp only [populateDefaultsFold, hr] at h
        repeat' split at h
        all_goals cases h
        all_goals
          (rw [Nat.testBit_lor]
           by_cases hji : j = i0
           · subst hji
             exact iff_of_true (by simp [Nat.testBit_two_pow_self])
               ⟨0, p, rfl, rfl⟩
           · rw [Nat.testBit_two_pow_of_ne (Ne.symm hji), Bool.or_false]
             rw [ih (i0 + 1) l2 m2 hr j]
             constructor
             · rintro ⟨k, q, hk, hj2⟩
               exact ⟨k + 1, q, by simpa using hk, by omega⟩
             · rintro ⟨k, q, hk, hj2⟩
               cases k with
               | zero => omega
               | succ k2 =>
                 exact ⟨k2, q, by simpa using hk, by omega⟩)

/-- Little-endian reading of the mask byte string: bit `j % 8` of byte
`j / 8` of `int.to_bytes(length, 'little')` is bit `j` of the
integer. -/
theorem natToBytesLE_testBit (len n j : Nat) (hj : j < 8 * len) :
    ∃ b, (natToBytesLE len n).get? (j / 8) = some b ∧
      b.testBit (j % 8) = n.testBit j := by
  have hlt : j / 8 < len := by omega
  refine ⟨n / 2 ^ (8 * (j / 8)) % 256, ?_, ?_⟩
  · simp [natToBytesLE, List.getElem?_map, List.getElem?_range hlt]
  · have h8 : (256 : Nat) = 2 ^ 8 := rfl
    rw [h8, Nat.testBit_mod_two_pow, ← Nat.shiftRight_eq_div_pow,
      Nat.testBit_shiftRight, Nat.div_add_mod]
    simp [Nat.mod_lt j (show 0 < 8 by decide)]

/-- C8 (amended): for a successfully bound EdgeQL call the extra
leading byte string encodes, little-endian, a bitmask over the bound
parameters in the binding layout order of `as_pg_params` — all
NAMED_ONLY parameters first, then POSITIONAL, then VARIADIC — not in
declaration order; bit `j` is set exactly when bound parameter `j` was
populated from its default rather than supplied by the caller, and bit
`j` of the integer mask is bit `j % 8` of byte `j / 8` of the byte
string.  For `f(x: int64, NAMED ONLY y: str = "a")`, `f(1)` therefore
yields the mask byte `1` (bit 0 set: the defaulted `y` is the first
bound parameter) and `f(1, y:="b")` the all-zero byte `0`. -/
theorem bitmask_layout :
    (∀ (isE : Bool) (rp : Option SType)
       (bound : List (Param × Option IRExpr)) (i0 : Nat)
       (l : List (Param × IRExpr)) (m : Nat),
      populateDefaultsFold isE rp bound i0 = Except.ok (l, m) →
      ∀ j : Nat, m.testBit j = true ↔
        ∃ k p, bound.get? k = some (p, none) ∧ j = i0 + k) ∧
    (∀ (len n j : Nat), j < 8 * len →
      ∃ b, (natToBytesLE len n).get? (j / 8) = some b ∧
        b.testBit (j % 8) = n.testBit j) ∧
    tryBindFuncArgs opsAny false [(SType.base "std::int64", IRExpr.expr 10)]
      [] fXY =
      Except.ok { func := some fXY,
                  args := some [IRExpr.bytesConst [1],
                    IRExpr.emptySet (SType.base "std::str") "y",
                    IRExpr.expr 10],
                  returnType := some (SType.base "std::str"),
                  usedImplicitCasts := false, hasEmptyVariadic := false } ∧
    tryBindFuncArgs opsAny false [(SType.base "std::int64", IRExpr.expr 10)]
      [("y", (SType.base "std::str", IRExpr.expr 20))] fXY =
      Except.ok { func := some fXY,
                  args := some [IRExpr.bytesConst [0], IRExpr.expr 20,
                    IRExpr.expr 10],
                  returnType := some (SType.base "std::str"),
                  usedImplicitCasts := false, hasEmptyVariadic := false } :=
  ⟨populateDefaults_mask_bits, natToBytesLE_testBit, by decide, by decide⟩

/-- Witness for `bitmask_layout`: populating the defaults of a bound
list whose second entry lacks a value yields mask `2` (bit 1 set), and
byte `1`, bit `1` of the two-byte little-endian encoding of `256` is
bit `9` of `256`. -/
theorem bitmask_layout_witness :
    (Nat.testBit 2 1 = true ↔ ∃ k p,
      [(paramX, some (IRExpr.expr 5)),
       (paramY, (none : Option IRExpr))].get? k = some (p, none) ∧
      1 = 0 + k) ∧
    (∃ b, (natToBytesLE 2 256).get? (9 / 8) = some b ∧
      b.testBit (9 % 8) = Nat.testBit 256 9) :=
  ⟨bitmask_layout.1 true none
      [(paramX, some (IRExpr.expr 5)), (paramY, none)] 0
      [(paramX, IRExpr.expr 5),
       (paramY, IRExpr.emptySet (SType.base "std::str") "y")] 2
      (by decide) 1,
   bitmask_layout.2.1 2 256 9 (by decide)⟩

end EdgeDB
